import Mathlib

/-!
Verification of the multi-stage exam-paper submission pipeline in
src/add_paper.py: credential acquisition, object-storage upload,
server notification, payload assembly, paper creation and local
persistence.

The embedding models the Python values flowing through the pipeline:

* PyJson models a Python value as produced by json.loads / consumed by
  json.dumps.  Numbers are modelled as integers (the pipeline never
  produces or inspects fractional numbers; floating point is outside the
  embedding).  Objects are association lists built exactly the way the
  Python dict is built: later assignments to an existing key overwrite
  the value in place, fresh keys are appended.
* parseJson models json.loads (strict mode: object/array/string/int
  grammar, whitespace = space, tab, newline, carriage return, rejection
  of unescaped control characters and of trailing commas).
* dumpsCptL models json.dumps(x, ensure_ascii=False) with the default
  separators; dumpsIndL models json.dumps(x, indent=2,
  ensure_ascii=False) as used in upload_pdf.
* External effects (the page-context fetches, the COS client call, the
  filesystem) are oracles recorded in a World structure, and every
  externally visible call of a run is recorded in an event trace.
-/

namespace AddPaper

/-! ## Character classes and Python string primitives -/

/-- Whitespace accepted by json.loads between tokens: space, tab,
newline, carriage return. -/
def isJsonWs (c : Char) : Bool :=
  c == ' ' || c == '\t' || c == '\n' || c == '\r'

/-- Whitespace stripped by Python str.strip()/rstrip() with no
argument (the ASCII part, which is all the pipeline ever meets). -/
def isPyWs (c : Char) : Bool :=
  c == ' ' || c == '\t' || c == '\n' || c == '\r' || c == '\x0b' || c == '\x0c'

/-- Decimal digit test. -/
def isDigitChar (c : Char) : Bool :=
  '0' ≤ c && c ≤ '9'

/-- Drop leading characters satisfying a predicate (shared worker for
skipping JSON whitespace and for Python lstrip). -/
def skipWs (s : List Char) : List Char :=
  s.dropWhile isJsonWs

/-- Drop trailing characters satisfying a predicate: the list-level
meaning of Python str.rstrip. -/
def dropTrailing (p : Char → Bool) (s : List Char) : List Char :=
  (s.reverse.dropWhile p).reverse

/-- Python payload.rstrip(): strip trailing whitespace. -/
def pyRstripWs (s : String) : String :=
  String.mk (dropTrailing isPyWs s.data)

/-- Python payload.rstrip(','): strip trailing commas. -/
def pyRstripComma (s : String) : String :=
  String.mk (dropTrailing (fun c => c == ',') s.data)

/-- The fragment-trimming step of save_new_paper, line 192:
payload.rstrip().rstrip(','). -/
def trimFragment (s : String) : String :=
  pyRstripComma (pyRstripWs s)

/-- Python s.strip(): strip whitespace from both ends. -/
def pyStrip (s : String) : String :=
  String.mk (dropTrailing isPyWs (s.data.dropWhile isPyWs))

/-- Python s.strip('\"'): strip double quotes from both ends. -/
def pyStripQuote (s : String) : String :=
  String.mk (dropTrailing (fun c => c == '"') (s.data.dropWhile (fun c => c == '"')))

/-- Worker for Python s.split(':', 1): characters before the first
colon, and the characters after it when a colon exists. -/
def splitOnceAux : List Char → List Char × Option (List Char)
  | [] => ([], none)
  | c :: r =>
    if c == ':' then ([], some r)
    else ((c :: (splitOnceAux r).1, (splitOnceAux r).2))

/-- Python s.split(':', 1): the part before the first colon and, when a
colon occurs, the remainder after it (so the source's len == 2 test is
the some case). -/
def splitOnceColon (s : String) : String × Option String :=
  (String.mk (splitOnceAux s.data).1, ((splitOnceAux s.data).2).map String.mk)

/-- os.path.basename for POSIX paths: the characters after the last
slash. -/
def basename (p : String) : String :=
  String.mk ((p.data.reverse.takeWhile (fun c => !(c == '/'))).reverse)

/-- Brace-wrap a fragment, modelling the source's '\x7b' + payload + '\x7d'
at line 195. -/
def wrapBraces (s : String) : String :=
  "\x7b" ++ s ++ "\x7d"

/-! ## Python JSON values -/

/-- A Python value as handled by the json module: None, bool, int, str,
list, dict.  Dicts are association lists in insertion order. -/
inductive PyJson where
  | null
  | bool (b : Bool)
  | num (n : Int)
  | str (s : String)
  | arr (elements : List PyJson)
  | obj (entries : List (String × PyJson))

/-- Python truthiness of a decoded JSON value: None, False, 0, empty
string, empty list and empty dict are falsy. -/
def jsonTruthy : PyJson → Bool
  | .null => false
  | .bool b => b
  | .num n => !(n == 0)
  | .str s => !(s == "")
  | .arr xs => !xs.isEmpty
  | .obj kvs => !kvs.isEmpty

/-- Truthiness of an optional Python value (None is falsy). -/
def truthyOpt : Option PyJson → Bool
  | none => false
  | some j => jsonTruthy j

/-- Python dict lookup d.get(k) on an association list with unique
keys, position-respecting. -/
def dictGet : List (String × PyJson) → String → Option PyJson
  | [], _ => none
  | (k', v) :: r, k => if k' == k then some v else dictGet r k

/-- Python dict assignment d[k] = v: replace the value in place when the
key exists, append the pair otherwise. -/
def dictSet : List (String × PyJson) → String → PyJson → List (String × PyJson)
  | [], k, v => [(k, v)]
  | (k', v') :: r, k, v =>
    if k' == k then (k', v) :: r else (k', v') :: dictSet r k v

/-- Build a dict from a parsed pair list the way json.loads does: one
assignment per pair in textual order (so a repeated key keeps its first
position and its last value). -/
def dictOfPairs (l : List (String × PyJson)) : List (String × PyJson) :=
  l.foldl (fun d kv => dictSet d kv.1 kv.2) []

mutual
/-- Wellformedness of a modelled Python value: dict keys are unique at
every level, which is an invariant of every real Python dict. -/
def jsonWF : PyJson → Bool
  | .null => true
  | .bool _ => true
  | .num _ => true
  | .str _ => true
  | .arr xs => jsonWFList xs
  | .obj kvs => jsonWFEntries kvs
/-- Wellformedness of every element of a list value. -/
def jsonWFList : List PyJson → Bool
  | [] => true
  | x :: xs => jsonWF x && jsonWFList xs
/-- Wellformedness of dict entries: each key is absent from the rest of
the entries, each value is wellformed. -/
def jsonWFEntries : List (String × PyJson) → Bool
  | [] => true
  | (k, v) :: r => (dictGet r k).isNone && jsonWF v && jsonWFEntries r
end

/-! ## The json.loads model -/

/-- Value of a hexadecimal digit, upper or lower case. -/
def hexVal (c : Char) : Option Nat :=
  if '0' ≤ c && c ≤ '9' then some (c.toNat - 48)
  else if 'a' ≤ c && c ≤ 'f' then some (c.toNat - 87)
  else if 'A' ≤ c && c ≤ 'F' then some (c.toNat - 55)
  else none

/-- Parse the body of a JSON string after the opening quote, decoding
backslash escapes, rejecting unescaped control characters (json.loads
strict mode), up to the closing quote. -/
def parseStrBody : List Char → Option (List Char × List Char)
  | [] => none
  | c :: r =>
    if c == '"' then some ([], r)
    else if c == '\\' then
      match r with
      | [] => none
      | e :: r2 =>
        if e == '"' then (parseStrBody r2).map (fun p => ('"' :: p.1, p.2))
        else if e == '\\' then (parseStrBody r2).map (fun p => ('\\' :: p.1, p.2))
        else if e == '/' then (parseStrBody r2).map (fun p => ('/' :: p.1, p.2))
        else if e == 'b' then (parseStrBody r2).map (fun p => ('\x08' :: p.1, p.2))
        else if e == 'f' then (parseStrBody r2).map (fun p => ('\x0c' :: p.1, p.2))
        else if e == 'n' then (parseStrBody r2).map (fun p => ('\n' :: p.1, p.2))
        else if e == 'r' then (parseStrBody r2).map (fun p => ('\r' :: p.1, p.2))
        else if e == 't' then (parseStrBody r2).map (fun p => ('\t' :: p.1, p.2))
        else if e == 'u' then
          match r2 with
          | h1 :: h2 :: h3 :: h4 :: r3 =>
            match hexVal h1, hexVal h2, hexVal h3, hexVal h4 with
            | some a, some b, some c3, some d =>
              (parseStrBody r3).map
                (fun p => (Char.ofNat (((a * 16 + b) * 16 + c3) * 16 + d) :: p.1, p.2))
            | _, _, _, _ => none
          | _ => none
        else none
    else if c.toNat < 32 then none
    else (parseStrBody r).map (fun p => (c :: p.1, p.2))

/-- Longest leading run of decimal digits, plus the remainder. -/
def digitRun : List Char → List Char × List Char
  | [] => ([], [])
  | c :: r =>
    if isDigitChar c then ((c :: (digitRun r).1, (digitRun r).2))
    else ([], c :: r)

/-- Numeric value of a digit run. -/
def digitsVal (l : List Char) : Nat :=
  l.foldl (fun a c => a * 10 + (c.toNat - 48)) 0

/-- Parse a JSON unsigned integer token: a nonempty digit run with no
leading zero (json's number grammar restricted to integers). -/
def parseNatToken (s : List Char) : Option (Nat × List Char) :=
  match digitRun s with
  | ([], _) => none
  | (d :: tl, r) =>
    if d == '0' && !tl.isEmpty then none
    else some (digitsVal (d :: tl), r)

/-- Parse a JSON integer token with optional leading minus. -/
def parseIntToken (s : List Char) : Option (Int × List Char) :=
  match s with
  | [] => none
  | c :: r =>
    if c == '-' then (parseNatToken r).map (fun p => (-(p.1 : Int), p.2))
    else (parseNatToken (c :: r)).map (fun p => ((p.1 : Int), p.2))

mutual
/-- Parse one JSON value at the head of the input (no leading
whitespace), structurally on fuel.  Matches the json.loads grammar for
null / true / false / strings / integers / arrays / objects. -/
def parseVal : Nat → List Char → Option (PyJson × List Char)
  | 0, _ => none
  | f + 1, s =>
    match s with
    | [] => none
    | c :: r =>
      if c == 'n' then
        match r with
        | 'u' :: 'l' :: 'l' :: r2 => some (.null, r2)
        | _ => none
      else if c == 't' then
        match r with
        | 'r' :: 'u' :: 'e' :: r2 => some (.bool true, r2)
        | _ => none
      else if c == 'f' then
        match r with
        | 'a' :: 'l' :: 's' :: 'e' :: r2 => some (.bool false, r2)
        | _ => none
      else if c == '"' then
        (parseStrBody r).map (fun p => (.str (String.mk p.1), p.2))
      else if c == '[' then
        match skipWs r with
        | [] => none
        | c2 :: r2 =>
          if c2 == ']' then some (.arr [], r2)
          else (parseItems f (c2 :: r2)).map (fun p => (.arr p.1, p.2))
      else if c == '{' then
        match skipWs r with
        | [] => none
        | c2 :: r2 =>
          if c2 == '}' then some (.obj [], r2)
          else (parseEntries f (c2 :: r2)).map (fun p => (.obj (dictOfPairs p.1), p.2))
      else
        (parseIntToken (c :: r)).map (fun p => (.num p.1, p.2))
/-- Parse one or more comma-separated array elements up to the closing
bracket. -/
def parseItems : Nat → List Char → Option (List PyJson × List Char)
  | 0, _ => none
  | f + 1, s =>
    match parseVal f s with
    | none => none
    | some (x, r) =>
      match skipWs r with
      | [] => none
      | c :: r2 =>
        if c == ',' then (parseItems f (skipWs r2)).map (fun p => (x :: p.1, p.2))
        else if c == ']' then some ([x], r2)
        else none
/-- Parse one or more comma-separated object members up to the closing
brace, as textual pairs (dict construction happens in parseVal). -/
def parseEntries : Nat → List Char → Option (List (String × PyJson) × List Char)
  | 0, _ => none
  | f + 1, s =>
    match s with
    | [] => none
    | c :: r =>
      if c == '"' then
        match parseStrBody r with
        | none => none
        | some (kcs, r1) =>
          match skipWs r1 with
          | [] => none
          | c2 :: r2 =>
            if c2 == ':' then
              match parseVal f (skipWs r2) with
              | none => none
              | some (v, r3) =>
                match skipWs r3 with
                | [] => none
                | c3 :: r4 =>
                  if c3 == ',' then
                    (parseEntries f (skipWs r4)).map
                      (fun p => ((String.mk kcs, v) :: p.1, p.2))
                  else if c3 == '}' then some ([(String.mk kcs, v)], r4)
                  else none
            else none
      else none
end

/-- The json.loads model: skip leading whitespace, parse one value,
require only whitespace after it. -/
def parseJson (s : String) : Option PyJson :=
  match parseVal ((skipWs s.data).length + 1) (skipWs s.data) with
  | some (j, r) => if (skipWs r).isEmpty then some j else none
  | none => none

/-! ## The json.dumps models -/

/-- Lowercase hexadecimal digit character. -/
def hexDigitChar (n : Nat) : Char :=
  if n < 10 then Char.ofNat (48 + n) else Char.ofNat (87 + n)

/-- Escape one character the way json.dumps(..., ensure_ascii=False)
does: quote, backslash and control characters are escaped, everything
else passes through. -/
def escapeChar (c : Char) : List Char :=
  if c == '"' then ['\\', '"']
  else if c == '\\' then ['\\', '\\']
  else if c == '\n' then ['\\', 'n']
  else if c == '\r' then ['\\', 'r']
  else if c == '\t' then ['\\', 't']
  else if c == '\x08' then ['\\', 'b']
  else if c == '\x0c' then ['\\', 'f']
  else if c.toNat < 32 then
    ['\\', 'u', '0', '0', hexDigitChar (c.toNat / 16), hexDigitChar (c.toNat % 16)]
  else [c]

/-- Escape every character of a string body. -/
def escAll : List Char → List Char
  | [] => []
  | c :: r => escapeChar c ++ escAll r

/-- A JSON string literal: quote, escaped body, quote. -/
def quoteChars (cs : List Char) : List Char :=
  '"' :: (escAll cs ++ ['"'])

/-- Decimal digit characters of a natural number, most significant
first, prepended to the accumulator; fuel-structural so that it
computes by reduction. -/
def natCharsCore : Nat → Nat → List Char → List Char
  | 0, _, acc => acc
  | f + 1, n, acc =>
    if n < 10 then Char.ofNat (48 + n % 10) :: acc
    else natCharsCore f (n / 10) (Char.ofNat (48 + n % 10) :: acc)

/-- Decimal digit characters of a natural number. -/
def natChars (n : Nat) : List Char :=
  natCharsCore (n + 1) n []

/-- Decimal characters of an integer, as printed by json.dumps. -/
def intChars (i : Int) : List Char :=
  if i < 0 then '-' :: natChars i.natAbs else natChars i.natAbs

/-- Indentation for nesting level lvl under indent=2. -/
def indentChars (lvl : Nat) : List Char :=
  List.replicate (2 * lvl) ' '

mutual
/-- json.dumps(x, indent=2, ensure_ascii=False) as a character list,
at nesting level lvl: the serializer used by upload_pdf at line 180. -/
def dumpsIndL (lvl : Nat) : PyJson → List Char
  | .null => 'n' :: 'u' :: 'l' :: 'l' :: []
  | .bool true => 't' :: 'r' :: 'u' :: 'e' :: []
  | .bool false => 'f' :: 'a' :: 'l' :: 's' :: 'e' :: []
  | .num n => intChars n
  | .str s => quoteChars s.data
  | .arr [] => ['[', ']']
  | .arr (x :: xs) =>
    '[' :: '\n' :: (dumpsIndItems (lvl + 1) (x :: xs) ++ '\n' :: (indentChars lvl ++ [']']))
  | .obj [] => ['{', '}']
  | .obj (e :: es) =>
    '{' :: '\n' :: (dumpsIndEntries (lvl + 1) (e :: es) ++ '\n' :: (indentChars lvl ++ ['}']))
/-- Indented array elements: each on its own line at the given level. -/
def dumpsIndItems (lvl : Nat) : List PyJson → List Char
  | [] => []
  | x :: xs => indentChars lvl ++ (dumpsIndL lvl x ++ dumpsIndItemsSep lvl xs)
/-- Separator-prefixed continuation of an indented element list. -/
def dumpsIndItemsSep (lvl : Nat) : List PyJson → List Char
  | [] => []
  | y :: ys => ',' :: '\n' :: (indentChars lvl ++ (dumpsIndL lvl y ++ dumpsIndItemsSep lvl ys))
/-- Indented object members: key, colon-space, value. -/
def dumpsIndEntries (lvl : Nat) : List (String × PyJson) → List Char
  | [] => []
  | (k, v) :: es =>
    indentChars lvl ++ (quoteChars k.data ++ ':' :: ' ' :: (dumpsIndL lvl v ++ dumpsIndEntriesSep lvl es))
/-- Separator-prefixed continuation of an indented member list. -/
def dumpsIndEntriesSep (lvl : Nat) : List (String × PyJson) → List Char
  | [] => []
  | (k, v) :: es =>
    ',' :: '\n' :: (indentChars lvl ++ (quoteChars k.data ++ ':' :: ' ' :: (dumpsIndL lvl v ++ dumpsIndEntriesSep lvl es)))
end

mutual
/-- json.dumps(x, ensure_ascii=False) with the default separators
(comma-space, colon-space), as used for the submitted payload at
line 210. -/
def dumpsCptL : PyJson → List Char
  | .null => 'n' :: 'u' :: 'l' :: 'l' :: []
  | .bool true => 't' :: 'r' :: 'u' :: 'e' :: []
  | .bool false => 'f' :: 'a' :: 'l' :: 's' :: 'e' :: []
  | .num n => intChars n
  | .str s => quoteChars s.data
  | .arr [] => ['[', ']']
  | .arr (x :: xs) => '[' :: (dumpsCptItems (x :: xs) ++ [']'])
  | .obj [] => ['{', '}']
  | .obj (e :: es) => '{' :: (dumpsCptEntries (e :: es) ++ ['}'])
/-- Compact array elements. -/
def dumpsCptItems : List PyJson → List Char
  | [] => []
  | x :: xs => dumpsCptL x ++ dumpsCptItemsSep xs
/-- Separator-prefixed continuation of a compact element list. -/
def dumpsCptItemsSep : List PyJson → List Char
  | [] => []
  | y :: ys => ',' :: ' ' :: (dumpsCptL y ++ dumpsCptItemsSep ys)
/-- Compact object members. -/
def dumpsCptEntries : List (String × PyJson) → List Char
  | [] => []
  | (k, v) :: es => quoteChars k.data ++ ':' :: ' ' :: (dumpsCptL v ++ dumpsCptEntriesSep es)
/-- Separator-prefixed continuation of a compact member list. -/
def dumpsCptEntriesSep : List (String × PyJson) → List Char
  | [] => []
  | (k, v) :: es =>
    ',' :: ' ' :: (quoteChars k.data ++ ':' :: ' ' :: (dumpsCptL v ++ dumpsCptEntriesSep es))
end

/-- json.dumps(x, indent=2, ensure_ascii=False) as a String. -/
def dumpsIndent (j : PyJson) : String :=
  String.mk (dumpsIndL 0 j)

/-- json.dumps(x, ensure_ascii=False) as a String. -/
def dumps (j : PyJson) : String :=
  String.mk (dumpsCptL j)

/-! ## The pipeline model

Each stage of add_paper.py is a function of a World of oracle outcomes
(the responses of the external collaborators) that also returns the
trace of externally visible calls it makes. -/

/-- The credentials sub-dict of the credential response. -/
structure CosCreds where
  tmpSecretId : String
  tmpSecretKey : String
  sessionToken : String

/-- The data field of a successful credential response, as indexed by
upload_to_cos (region, bucket, keyPrefix, cdnDomain, credentials). -/
structure CredentialData where
  region : String
  bucket : String
  keyPrefix : String
  cdnDomain : String
  credentials : CosCreds

/-- The value returned by upload_to_cos on success at line 99:
the final public URL and the object key. -/
structure FileInfo where
  url : String
  key : String

/-- One question stem as scraped: origin plus stem text. -/
structure QuestionStem where
  origin : String
  stem : String

/-- The scraped paper metadata consumed by save_new_paper. -/
structure QuestionPage where
  name : String
  subject : String
  province : String
  grade : String
  year : String
  page_id : Option PyJson
  stemlist : List QuestionStem

/-- The snapshot written to the TOML file at lines 246-254. -/
structure PaperRecord where
  name : String
  province : String
  grade : String
  year : String
  subject : String
  page_id : Option PyJson
  stemlist : List QuestionStem

/-- Externally visible calls of a run: the credential fetch, the COS
client upload, the notification fetch, the paper-creation POST, and the
TOML file write. -/
inductive Event where
  | credentialRequest
  | cosUpload (bucket : String) (localPath : String) (key : String)
  | notifyCall (filename : String) (fileUrl : String)
  | submitCall (payload : String)
  | fileWrite (path : String) (record : PaperRecord)

/-- A Python exception escaping a modelled function. -/
inductive PyErr where
  | attributeError
  | jsonDecodeError
  | typeError

/-- Result of a save_new_paper run: an uncaught exception, or a normal
return value (the paper id, or None). -/
inductive RunOutcome where
  | raised (e : PyErr)
  | returned (v : Option PyJson)

/-- Oracle outcomes of the external collaborators for one run. -/
structure World where
  /-- os.path.exists for the PDF path checked at line 158. -/
  fileExists : Bool
  /-- Result of get_upload_credentials: the data field of a successful
  credential response, or None for any transport error, non-success
  status or malformed response (lines 63-76 collapse all of these to
  None before the caller sees them). -/
  credResult : Option CredentialData
  /-- The uuid.uuid4() drawn at line 91, as a string. -/
  uuid : String
  /-- Outcome of the COS client.upload_file call at line 95: ok, or the
  exception it raised. -/
  cosOutcome : Except String Unit
  /-- Result of the notification fetch at line 148: the response JSON
  passed through verbatim, or None when the evaluate call raised
  (lines 152-154). -/
  notifyResponse : Option PyJson
  /-- The fragment string returned by ask_llm_for_playload at
  line 187. -/
  llmFragment : String
  /-- The parsed response of the paper-creation POST at line 214, or
  None when the page returned null. -/
  submitResponse : Option PyJson

/-- Stage 1, get_upload_credentials: one page-context fetch whose
internal outcome (transport error, success flag, data extraction) is
collapsed into the credResult oracle, exactly as the source collapses
every failure shape to None. -/
def get_upload_credentials (w : World) : Option CredentialData × List Event :=
  (w.credResult, [.credentialRequest])

/-- The object key derived at line 91: keyPrefix/uuid/filename. -/
def cosObjectKey (keyPrefix uuid filename : String) : String :=
  keyPrefix ++ "/" ++ uuid ++ "/" ++ filename

/-- Stage 2, upload_to_cos (lines 78-102): derive the object key, call
the client upload, and on success return the CDN URL and key; any
client exception is caught and turned into None. -/
def upload_to_cos (w : World) (credentials_data : CredentialData) (file_path : String) :
    Option FileInfo × List Event :=
  let filename := basename file_path
  let object_key := cosObjectKey credentials_data.keyPrefix w.uuid filename
  match w.cosOutcome with
  | .ok _ =>
    (some { url := "https://" ++ credentials_data.cdnDomain ++ "/" ++ object_key
            key := object_key },
     [.cosUpload credentials_data.bucket file_path object_key])
  | .error _ => (none, [.cosUpload credentials_data.bucket file_path object_key])

/-- Stage 3, notify_application_server (lines 104-154): one
page-context fetch; the response mapping is passed through verbatim,
an exception yields None. -/
def notify_application_server (w : World) (filename : String) (file_info : FileInfo) :
    Option PyJson × List Event :=
  (w.notifyResponse, [.notifyCall filename file_info.url])

/-- The final-response analysis of upload_pdf (lines 173-183): an
absent notify result returns None; a falsy response returns None; a
truthy dict with truthy success and a data key yields the attachment
fragment string; a truthy dict without those yields None; a truthy
non-dict raises AttributeError at the .get call. -/
def attachmentFromNotify : Option PyJson → Except PyErr (Option String)
  | none => .ok none
  | some res =>
    if jsonTruthy res = false then .ok none
    else
      match res with
      | .obj nkvs =>
        if truthyOpt (dictGet nkvs "success") = true then
          match dictGet nkvs "data" with
          | some d => .ok (some ("\"attachments\": " ++ dumpsIndent d))
          | none => .ok none
        else .ok none
      | _ => .error .attributeError

/-- Stages 1-3 composed, upload_pdf (lines 157-183): missing file or
any absent stage result returns None, skipping every later stage;
otherwise the notify response is analysed by attachmentFromNotify. -/
def upload_pdf (w : World) (file_path : String) : Except PyErr (Option String) × List Event :=
  if w.fileExists = false then (.ok none, [])
  else
    let cr := get_upload_credentials w
    match cr.1 with
    | none => (.ok none, cr.2)
    | some cd =>
      let uc := upload_to_cos w cd file_path
      match uc.1 with
      | none => (.ok none, cr.2 ++ uc.2)
      | some fi =>
        let nr := notify_application_server w (basename file_path) fi
        (attachmentFromNotify nr.1, cr.2 ++ uc.2 ++ nr.2)

/-- The merge step of save_new_paper (lines 202-208): when the
attachment fragment is a truthy string, split it at the first colon;
when that yields two parts, strip whitespace and quotes from the key,
json.loads the value (an uncaught raise when it is invalid) and assign
it into the payload dict. -/
def mergeParcial (kvs : List (String × PyJson)) (parcial : Option String) :
    Except PyErr (List (String × PyJson)) :=
  match parcial with
  | none => .ok kvs
  | some s =>
    if s = "" then .ok kvs
    else
      match splitOnceColon s with
      | (_, none) => .ok kvs
      | (before, some after) =>
        match parseJson after with
        | none => .error .jsonDecodeError
        | some v => .ok (dictSet kvs (pyStripQuote (pyStrip before)) v)

/-- The submission and persistence tail of save_new_paper
(lines 210-264): serialize the merged payload, POST it, and on a truthy
dict response with truthy success, set page_id to the data field and
write the TOML snapshot; otherwise return None.  A truthy non-dict
response raises AttributeError at the .get call.  When success is
truthy but the data identifier is falsy or absent, line 252 stores
page_id as None and tomli_w.dump at line 256 raises TypeError (None is
not TOML-serializable), so the run raises and no record is
persisted. -/
def submitAndPersist (w : World) (qp : QuestionPage)
    (kvs : List (String × PyJson)) (ev1 : List Event) : RunOutcome × List Event :=
  let payload_json := dumps (.obj kvs)
  let evs := ev1 ++ [.submitCall payload_json]
  match w.submitResponse with
  | none => (.returned none, evs)
  | some res =>
    if jsonTruthy res = false then (.returned none, evs)
    else
      match res with
      | .obj rkvs =>
        if truthyOpt (dictGet rkvs "success") = true then
          let paper_id := dictGet rkvs "data"
          if truthyOpt paper_id = true then
            (.returned paper_id,
             evs ++ [.fileWrite ("output_toml/" ++ qp.name ++ ".toml")
               { name := qp.name
                 province := qp.province
                 grade := qp.grade
                 year := qp.year
                 subject := qp.subject
                 page_id := paper_id
                 stemlist := qp.stemlist.map (fun q => { origin := q.origin, stem := q.stem }) }])
          else (.raised .typeError, evs)
        else (.returned none, evs)
      | _ => (.raised .attributeError, evs)

/-- save_new_paper (lines 185-264): run the attachment pipeline, trim
and brace-wrap the LLM fragment, json.loads it (a parse failure raises
after printing), merge the attachment fragment, then submit and
persist. -/
def save_new_paper (w : World) (qp : QuestionPage) : RunOutcome × List Event :=
  let up := upload_pdf w ("PDF/" ++ qp.name ++ ".pdf")
  match up.1 with
  | .error e => (.raised e, up.2)
  | .ok parcial =>
    match parseJson (wrapBraces (trimFragment w.llmFragment)) with
    | none => (.raised .jsonDecodeError, up.2)
    | some (.obj kvs0) =>
      match mergeParcial kvs0 parcial with
      | .error e => (.raised e, up.2)
      | .ok kvs => submitAndPersist w qp kvs up.2
    | some _ =>
      -- unreachable: a brace-wrapped input can only parse to an object
      (.raised .jsonDecodeError, up.2)

/-! ## Trace-shape helper lemmas -/

/-- Every event of an upload_pdf run is a credential request, a COS
upload or a notification call (never a submission or a file write). -/
theorem upload_pdf_events_cases (w : World) (fp : String) :
    ∀ ev ∈ (upload_pdf w fp).2,
      ev = .credentialRequest ∨ (∃ b p k, ev = .cosUpload b p k) ∨
        ∃ fn u, ev = .notifyCall fn u := by
  intro ev hev
  by_cases hfe : w.fileExists = false
  · simp [upload_pdf, hfe] at hev
  · cases hcr : w.credResult with
    | none =>
      simp [upload_pdf, get_upload_credentials, hfe, hcr] at hev
      exact Or.inl hev
    | some cd =>
      cases hco : w.cosOutcome with
      | error e =>
        simp [upload_pdf, get_upload_credentials, upload_to_cos, hfe, hcr, hco] at hev
        rcases hev with h | h
        · exact Or.inl h
        · exact Or.inr (Or.inl ⟨_, _, _, h⟩)
      | ok u =>
        simp [upload_pdf, get_upload_credentials, upload_to_cos,
              notify_application_server, hfe, hcr, hco] at hev
        rcases hev with h | h | h
        · exact Or.inl h
        · exact Or.inr (Or.inl ⟨_, _, _, h⟩)
        · exact Or.inr (Or.inr ⟨_, _, h⟩)

/-- When the credential fetch returns absent, upload_pdf returns an
absent attachment result and its trace holds at most the credential
request itself. -/
theorem upload_pdf_credAbsent (w : World) (fp : String) (hc : w.credResult = none) :
    (upload_pdf w fp).1 = .ok none ∧
      ((upload_pdf w fp).2 = [] ∨ (upload_pdf w fp).2 = [.credentialRequest]) := by
  by_cases hfe : w.fileExists = false
  · simp [upload_pdf, hfe]
  · simp [upload_pdf, get_upload_credentials, hfe, hc]

/-- The trace of save_new_paper is the trace of its upload_pdf call
followed only by submission and file-write events. -/
theorem save_new_paper_events_split (w : World) (qp : QuestionPage) :
    ∃ tail, (save_new_paper w qp).2 = (upload_pdf w ("PDF/" ++ qp.name ++ ".pdf")).2 ++ tail ∧
      ∀ ev ∈ tail, (∃ p, ev = Event.submitCall p) ∨ ∃ pa rec, ev = Event.fileWrite pa rec := by
  cases hup : (upload_pdf w ("PDF/" ++ qp.name ++ ".pdf")).1 with
  | error e => exact ⟨[], by simp [save_new_paper, hup], by simp⟩
  | ok parcial =>
    cases hp : parseJson (wrapBraces (trimFragment w.llmFragment)) with
    | none => exact ⟨[], by simp [save_new_paper, hup, hp], by simp⟩
    | some j =>
      cases j with
      | obj kvs0 =>
        cases hm : mergeParcial kvs0 parcial with
        | error e => exact ⟨[], by simp [save_new_paper, hup, hp, hm], by simp⟩
        | ok kvs =>
          cases hsr : w.submitResponse with
          | none =>
            exact ⟨[.submitCall (dumps (.obj kvs))],
              by simp [save_new_paper, submitAndPersist, hup, hp, hm, hsr], by simp⟩
          | some res =>
            by_cases ht : jsonTruthy res = false
            · exact ⟨[.submitCall (dumps (.obj kvs))],
                by simp [save_new_paper, submitAndPersist, hup, hp, hm, hsr, ht], by simp⟩
            · cases res with
              | obj rkvs =>
                by_cases hs : truthyOpt (dictGet rkvs "success") = true
                · by_cases hd : truthyOpt (dictGet rkvs "data") = true
                  · refine ⟨[.submitCall (dumps (.obj kvs)),
                      .fileWrite ("output_toml/" ++ qp.name ++ ".toml")
                        { name := qp.name, province := qp.province, grade := qp.grade
                          year := qp.year, subject := qp.subject
                          page_id := dictGet rkvs "data"
                          stemlist := qp.stemlist.map
                            (fun q => { origin := q.origin, stem := q.stem }) }], ?_, ?_⟩
                    · simp [save_new_paper, submitAndPersist, hup, hp, hm, hsr, ht, hs, hd]
                    · intro ev hev
                      simp only [List.mem_cons, List.not_mem_nil, or_false] at hev
                      rcases hev with rfl | rfl
                      · exact Or.inl ⟨_, rfl⟩
                      · exact Or.inr ⟨_, _, rfl⟩
                  · exact ⟨[.submitCall (dumps (.obj kvs))],
                      by simp [save_new_paper, submitAndPersist, hup, hp, hm, hsr, ht, hs, hd],
                      by simp⟩
                · exact ⟨[.submitCall (dumps (.obj kvs))],
                    by simp [save_new_paper, submitAndPersist, hup, hp, hm, hsr, ht, hs], by simp⟩
              | null =>
                exact ⟨[.submitCall (dumps (.obj kvs))],
                  by simp [save_new_paper, submitAndPersist, hup, hp, hm, hsr, ht], by simp⟩
              | bool b =>
                exact ⟨[.submitCall (dumps (.obj kvs))],
                  by simp [save_new_paper, submitAndPersist, hup, hp, hm, hsr, ht], by simp⟩
              | num n =>
                exact ⟨[.submitCall (dumps (.obj kvs))],
                  by simp [save_new_paper, submitAndPersist, hup, hp, hm, hsr, ht], by simp⟩
              | str s =>
                exact ⟨[.submitCall (dumps (.obj kvs))],
                  by simp [save_new_paper, submitAndPersist, hup, hp, hm, hsr, ht], by simp⟩
              | arr xs =>
                exact ⟨[.submitCall (dumps (.obj kvs))],
                  by simp [save_new_paper, submitAndPersist, hup, hp, hm, hsr, ht], by simp⟩
      | null => exact ⟨[], by simp [save_new_paper, hup, hp], by simp⟩
      | bool b => exact ⟨[], by simp [save_new_paper, hup, hp], by simp⟩
      | num n => exact ⟨[], by simp [save_new_paper, hup, hp], by simp⟩
      | str s => exact ⟨[], by simp [save_new_paper, hup, hp], by simp⟩
      | arr xs => exact ⟨[], by simp [save_new_paper, hup, hp], by simp⟩

/-! ## Claim C1: a run with an absent credential fetch -/

/-- C1 (amended): when get_upload_credentials returns absent, no COS
upload call and no notification call occur anywhere in the run and
upload_pdf returns an absent attachment result; the run nevertheless
continues into paper submission. -/
theorem credential_absent_skips_attachment_calls (w : World) (qp : QuestionPage)
    (hc : w.credResult = none) :
    (upload_pdf w ("PDF/" ++ qp.name ++ ".pdf")).1 = .ok none ∧
    (∀ b p k, Event.cosUpload b p k ∉ (save_new_paper w qp).2) ∧
    (∀ fn u, Event.notifyCall fn u ∉ (save_new_paper w qp).2) := by
  obtain ⟨h1, h2⟩ := upload_pdf_credAbsent w ("PDF/" ++ qp.name ++ ".pdf") hc
  obtain ⟨tail, hsplit, htail⟩ := save_new_paper_events_split w qp
  refine ⟨h1, ?_, ?_⟩
  · intro b p k hmem
    rw [hsplit] at hmem
    rcases List.mem_append.mp hmem with h | h
    · rcases h2 with he | he <;> rw [he] at h <;> simp at h
    · rcases htail _ h with ⟨p2, hp2⟩ | ⟨pa, rec, hrec⟩ <;> simp_all
  · intro fn u hmem
    rw [hsplit] at hmem
    rcases List.mem_append.mp hmem with h | h
    · rcases h2 with he | he <;> rw [he] at h <;> simp at h
    · rcases htail _ h with ⟨p2, hp2⟩ | ⟨pa, rec, hrec⟩ <;> simp_all

/-- World of the C1 runs: the credential fetch yields absent, yet the
submission endpoint would answer success. -/
def c1World : World :=
  { fileExists := true
    credResult := none
    uuid := "u"
    cosOutcome := .ok ()
    notifyResponse := some .null
    llmFragment := "\"name\": \"t\","
    submitResponse := some (.obj [("success", .bool true), ("data", .str "PID-1")]) }

/-- Paper metadata of the C1 runs. -/
def c1Page : QuestionPage :=
  { name := "t", subject := "Math", province := "Beijing", grade := "G1", year := "2024"
    page_id := none, stemlist := [{ origin := "Q1", stem := "2+2" }] }

/-- Witness for the amended C1 at a concrete world. -/
theorem credential_absent_skips_attachment_calls_witness :
    (upload_pdf c1World ("PDF/" ++ c1Page.name ++ ".pdf")).1 = .ok none ∧
    (∀ b p k, Event.cosUpload b p k ∉ (save_new_paper c1World c1Page).2) ∧
    (∀ fn u, Event.notifyCall fn u ∉ (save_new_paper c1World c1Page).2) :=
  credential_absent_skips_attachment_calls c1World c1Page rfl

/-- Counterexample to C1 as stated: with the credential fetch absent,
the run still submits the paper, reports success, and writes the
PaperRecord file — the pipeline does not stop after the absent stage
and does not report overall failure. -/
theorem credential_absent_cex :
    c1World.credResult = none ∧
    (save_new_paper c1World c1Page).1 = .returned (some (.str "PID-1")) ∧
    Event.fileWrite "output_toml/t.toml"
      { name := "t", province := "Beijing", grade := "G1", year := "2024", subject := "Math"
        page_id := some (.str "PID-1")
        stemlist := [{ origin := "Q1", stem := "2+2" }] }
      ∈ (save_new_paper c1World c1Page).2 := by
  refine ⟨rfl, rfl, ?_⟩
  rw [show (save_new_paper c1World c1Page).2 =
    [Event.credentialRequest,
     Event.submitCall "\x7b\"name\": \"t\"\x7d",
     Event.fileWrite "output_toml/t.toml"
       { name := "t", province := "Beijing", grade := "G1", year := "2024", subject := "Math"
         page_id := some (.str "PID-1")
         stemlist := [{ origin := "Q1", stem := "2+2" }] }] from rfl]
  exact List.mem_cons_of_mem _ (List.mem_cons_of_mem _ (List.mem_cons_self _ _))

/-! ## Claim C5: a malformed LLM fragment is a hard failure -/

/-- C5: when the trimmed and brace-wrapped LLM fragment fails to parse,
save_new_paper raises and no paper-creation request is issued in that
run. -/
theorem fragment_parse_failure_raises (w : World) (qp : QuestionPage)
    (h : parseJson (wrapBraces (trimFragment w.llmFragment)) = none) :
    (∃ e, (save_new_paper w qp).1 = .raised e) ∧
    ∀ p, Event.submitCall p ∉ (save_new_paper w qp).2 := by
  cases hup : (upload_pdf w ("PDF/" ++ qp.name ++ ".pdf")).1 with
  | error e =>
    have hev : (save_new_paper w qp).2 = (upload_pdf w ("PDF/" ++ qp.name ++ ".pdf")).2 := by
      simp [save_new_paper, hup]
    refine ⟨⟨e, by simp [save_new_paper, hup]⟩, ?_⟩
    intro p hmem
    rw [hev] at hmem
    rcases upload_pdf_events_cases _ _ _ hmem with h1 | ⟨b, p2, k, h1⟩ | ⟨fn, u, h1⟩ <;>
      simp at h1
  | ok parcial =>
    have hev : (save_new_paper w qp).2 = (upload_pdf w ("PDF/" ++ qp.name ++ ".pdf")).2 := by
      simp [save_new_paper, hup, h]
    refine ⟨⟨.jsonDecodeError, by simp [save_new_paper, hup, h]⟩, ?_⟩
    intro p hmem
    rw [hev] at hmem
    rcases upload_pdf_events_cases _ _ _ hmem with h1 | ⟨b, p2, k, h1⟩ | ⟨fn, u, h1⟩ <;>
      simp at h1

/-- World of the C5 witness: the LLM fragment is not valid JSON once
wrapped. -/
def c5World : World :=
  { fileExists := false
    credResult := none
    uuid := "u"
    cosOutcome := .ok ()
    notifyResponse := none
    llmFragment := "not json at all"
    submitResponse := some (.obj [("success", .bool true), ("data", .str "PID-9")]) }

/-- Witness for C5 at a concrete world. -/
theorem fragment_parse_failure_raises_witness :
    (∃ e, (save_new_paper c5World c1Page).1 = .raised e) ∧
    ∀ p, Event.submitCall p ∉ (save_new_paper c5World c1Page).2 :=
  fragment_parse_failure_raises c5World c1Page rfl

/-! ## Dict update lemmas -/

/-- Python dict assignment stores the assigned value under the assigned
key. -/
theorem dictGet_dictSet_self (kvs : List (String × PyJson)) (k : String) (v : PyJson) :
    dictGet (dictSet kvs k v) k = some v := by
  induction kvs with
  | nil => simp [dictSet, dictGet]
  | cons kv r ih =>
    obtain ⟨k2, v2⟩ := kv
    by_cases h : k2 = k
    · simp [dictSet, dictGet, h]
    · simp [dictSet, dictGet, h, ih]

/-- Python dict assignment leaves every other key unchanged. -/
theorem dictGet_dictSet_ne (kvs : List (String × PyJson)) (k k2 : String) (v : PyJson)
    (h : k2 ≠ k) :
    dictGet (dictSet kvs k v) k2 = dictGet kvs k2 := by
  induction kvs with
  | nil => simp [dictSet, dictGet, Ne.symm h]
  | cons kv r ih =>
    obtain ⟨k3, v3⟩ := kv
    by_cases h3 : k3 = k
    · subst h3
      simp [dictSet, dictGet, Ne.symm h]
    · simp [dictSet, dictGet, h3, ih]

/-! ## Claim C3: an absent attachment result still submits -/

/-- Sanity of the submission oracle: a truthy paper-creation response
is a dict (so the .get call at line 237 does not raise).  Every real
parsed JSON response of that endpoint satisfies this. -/
def submitRespSane (w : World) : Prop :=
  ∀ j, w.submitResponse = some j → jsonTruthy j = true → ∃ rkvs, j = PyJson.obj rkvs

/-- C3 (amended): when upload_pdf produced no attachment fragment,
save_new_paper still assembles the payload from the LLM fragment
alone — the submitted payload is exactly the parsed fragment, with no
attachments key added — and the assembly and submission steps
themselves raise nothing: a raise can only be the later persistence
TypeError, occurring exactly when the submission response's success is
truthy but its data identifier is not. -/
theorem attachment_absent_still_submits (w : World) (qp : QuestionPage)
    (kvs : List (String × PyJson))
    (hup : (upload_pdf w ("PDF/" ++ qp.name ++ ".pdf")).1 = .ok none)
    (hfrag : parseJson (wrapBraces (trimFragment w.llmFragment)) = some (.obj kvs))
    (hsane : submitRespSane w) :
    Event.submitCall (dumps (.obj kvs)) ∈ (save_new_paper w qp).2 ∧
    ∀ e, (save_new_paper w qp).1 = .raised e →
      e = .typeError ∧ ∃ rkvs, w.submitResponse = some (.obj rkvs) ∧
        truthyOpt (dictGet rkvs "success") = true ∧
        ¬truthyOpt (dictGet rkvs "data") = true := by
  have hrun : save_new_paper w qp =
      submitAndPersist w qp kvs (upload_pdf w ("PDF/" ++ qp.name ++ ".pdf")).2 := by
    simp [save_new_paper, hup, hfrag, mergeParcial]
  rw [hrun]
  constructor
  · unfold submitAndPersist
    cases hsr : w.submitResponse with
    | none => simp
    | some res =>
      cases htv : jsonTruthy res with
      | false => simp [htv]
      | true =>
        cases res with
        | obj rkvs =>
          by_cases hs : truthyOpt (dictGet rkvs "success") = true
          · by_cases hd : truthyOpt (dictGet rkvs "data") = true <;> simp [htv, hs, hd]
          · simp [htv, hs]
        | null => simp [htv]
        | bool b => simp [htv]
        | num n => simp [htv]
        | str s => simp [htv]
        | arr xs => simp [htv]
  · intro e
    unfold submitAndPersist
    cases hsr : w.submitResponse with
    | none => intro he; simp at he
    | some res =>
      cases htv : jsonTruthy res with
      | false => intro he; simp [htv] at he
      | true =>
        obtain ⟨rkvs, rfl⟩ := hsane res hsr htv
        by_cases hs : truthyOpt (dictGet rkvs "success") = true
        · by_cases hd : truthyOpt (dictGet rkvs "data") = true
          · intro he; simp [htv, hs, hd] at he
          · intro he
            have he2 : PyErr.typeError = e := by simpa [htv, hs, hd] using he
            exact ⟨he2.symm, rkvs, rfl, hs, hd⟩
        · intro he; simp [htv, hs] at he

/-- World of the C3 witness: the PDF file is missing so the attachment
pipeline yields absent, the fragment itself is valid. -/
def c3World : World :=
  { fileExists := false
    credResult := none
    uuid := "u"
    cosOutcome := .ok ()
    notifyResponse := none
    llmFragment := "\"name\": \"x\""
    submitResponse := some (.obj [("success", .bool false)]) }

/-- Witness for C3 at a concrete world. -/
theorem attachment_absent_still_submits_witness :
    Event.submitCall (dumps (.obj [("name", .str "x")])) ∈ (save_new_paper c3World c1Page).2 ∧
    ∀ e, (save_new_paper c3World c1Page).1 = .raised e →
      e = .typeError ∧ ∃ rkvs, c3World.submitResponse = some (.obj rkvs) ∧
        truthyOpt (dictGet rkvs "success") = true ∧
        ¬truthyOpt (dictGet rkvs "data") = true := by
  refine attachment_absent_still_submits c3World c1Page [("name", .str "x")] rfl rfl ?_
  intro j hj ht
  injection hj with h
  exact ⟨[("success", .bool false)], h.symm⟩

/-- World of the C3 counterexample: attachment absent (the PDF file is
missing), valid fragment, and a submission response that succeeds
without a data identifier. -/
def c3bWorld : World :=
  { fileExists := false
    credResult := none
    uuid := "u"
    cosOutcome := .ok ()
    notifyResponse := none
    llmFragment := "\"name\": \"x\""
    submitResponse := some (.obj [("success", .bool true)]) }

/-- Counterexample to C3's original no-raise clause: with an absent
attachment result, a valid fragment and a sane success-without-
identifier submission response, the payload is still submitted without
an attachments key, but the run raises TypeError: line 252 stores
page_id as None and tomli_w.dump at line 256 cannot serialize it. -/
theorem attachment_absent_raises_cex :
    (upload_pdf c3bWorld ("PDF/" ++ c1Page.name ++ ".pdf")).1 = .ok none ∧
    Event.submitCall (dumps (.obj [("name", .str "x")]))
      ∈ (save_new_paper c3bWorld c1Page).2 ∧
    (save_new_paper c3bWorld c1Page).1 = .raised .typeError := by
  have htr : (save_new_paper c3bWorld c1Page).2 =
      [Event.submitCall (dumps (.obj [("name", .str "x")]))] := rfl
  refine ⟨rfl, ?_, rfl⟩
  rw [htr]
  exact List.mem_singleton.mpr rfl

/-! ## Claim C6: the attachment key overwrites, other keys unchanged -/

/-- C6: when the attachment fragment is present and splits at its first
colon into a key part and a JSON value, the submitted payload is the
fragment mapping with the stripped key overwritten to the parsed value:
lookup of that key yields the notifier's value, and lookup of every
other key is unchanged by the merge. -/
theorem merge_overwrites_attachment_key (w : World) (qp : QuestionPage)
    (s before after : String) (kvs : List (String × PyJson)) (vj : PyJson)
    (hup : (upload_pdf w ("PDF/" ++ qp.name ++ ".pdf")).1 = .ok (some s))
    (hfrag : parseJson (wrapBraces (trimFragment w.llmFragment)) = some (.obj kvs))
    (hsplit : splitOnceColon s = (before, some after))
    (hval : parseJson after = some vj) :
    Event.submitCall (dumps (.obj (dictSet kvs (pyStripQuote (pyStrip before)) vj)))
      ∈ (save_new_paper w qp).2 ∧
    dictGet (dictSet kvs (pyStripQuote (pyStrip before)) vj)
      (pyStripQuote (pyStrip before)) = some vj ∧
    ∀ k2, k2 ≠ pyStripQuote (pyStrip before) →
      dictGet (dictSet kvs (pyStripQuote (pyStrip before)) vj) k2 = dictGet kvs k2 := by
  have hsne : ¬(s = "") := by
    intro hs0
    rw [hs0] at hsplit
    simp [splitOnceColon, splitOnceAux] at hsplit
  have hmerge : mergeParcial kvs (some s) =
      .ok (dictSet kvs (pyStripQuote (pyStrip before)) vj) := by
    simp [mergeParcial, hsne, hsplit, hval]
  have hrun : save_new_paper w qp =
      submitAndPersist w qp (dictSet kvs (pyStripQuote (pyStrip before)) vj)
        (upload_pdf w ("PDF/" ++ qp.name ++ ".pdf")).2 := by
    simp [save_new_paper, hup, hfrag, hmerge]
  refine ⟨?_, dictGet_dictSet_self kvs _ vj, fun k2 h2 => dictGet_dictSet_ne kvs _ k2 vj h2⟩
  rw [hrun]
  unfold submitAndPersist
  cases hsr : w.submitResponse with
  | none => simp
  | some res =>
    cases htv : jsonTruthy res with
    | false => simp [htv]
    | true =>
      cases res with
      | obj rkvs =>
        by_cases hs : truthyOpt (dictGet rkvs "success") = true
        · by_cases hd : truthyOpt (dictGet rkvs "data") = true <;> simp [htv, hs, hd]
        · simp [htv, hs]
      | null => simp [htv]
      | bool b => simp [htv]
      | num n => simp [htv]
      | str s2 => simp [htv]
      | arr xs => simp [htv]

/-- World of the C6 witness: every attachment stage succeeds and the
notifier's data is an empty list; the fragment already carries an
attachments key that the merge must overwrite. -/
def c6World : World :=
  { fileExists := true
    credResult := some
      { region := "ap-x", bucket := "b1", keyPrefix := "p", cdnDomain := "cdn.example.com"
        credentials := { tmpSecretId := "i", tmpSecretKey := "k", sessionToken := "t" } }
    uuid := "u"
    cosOutcome := .ok ()
    notifyResponse := some (.obj [("success", .bool true), ("data", .arr [])])
    llmFragment := "\"name\": \"x\", \"attachments\": 0"
    submitResponse := none }

/-- Witness for C6 at a concrete world. -/
theorem merge_overwrites_attachment_key_witness :
    Event.submitCall
        (dumps (.obj (dictSet [("name", .str "x"), ("attachments", .num 0)] "attachments" (.arr []))))
      ∈ (save_new_paper c6World c1Page).2 ∧
    dictGet (dictSet [("name", .str "x"), ("attachments", .num 0)] "attachments" (.arr []))
      "attachments" = some (.arr []) ∧
    ∀ k2, k2 ≠ "attachments" →
      dictGet (dictSet [("name", .str "x"), ("attachments", .num 0)] "attachments" (.arr [])) k2 =
        dictGet [("name", .str "x"), ("attachments", .num 0)] k2 :=
  merge_overwrites_attachment_key c6World c1Page
    "\"attachments\": []" "\"attachments\"" " []"
    [("name", .str "x"), ("attachments", .num 0)] (.arr []) rfl rfl rfl rfl

/-! ## Trailing-strip lemmas and claim C4 -/

/-- dropWhile passes over a prefix all of whose characters satisfy the
predicate. -/
theorem dropWhile_append_all (p : Char → Bool) (u r : List Char)
    (h : ∀ c ∈ u, p c = true) : (u ++ r).dropWhile p = r.dropWhile p := by
  induction u with
  | nil => rfl
  | cons c t ih =>
    simp only [List.cons_append, List.dropWhile_cons, h c (by simp), if_pos]
    exact ih (fun x hx => h x (by simp [hx]))

/-- dropTrailing absorbs a suffix all of whose characters satisfy the
predicate. -/
theorem dropTrailing_append_all (p : Char → Bool) (l t : List Char)
    (h : ∀ c ∈ t, p c = true) : dropTrailing p (l ++ t) = dropTrailing p l := by
  unfold dropTrailing
  rw [List.reverse_append,
      dropWhile_append_all p t.reverse l.reverse (fun c hc => h c (List.mem_reverse.mp hc))]

/-- dropTrailing is the identity on a list ending in a character that
fails the predicate. -/
theorem dropTrailing_concat_stop (p : Char → Bool) (l : List Char) (c : Char)
    (h : p c = false) : dropTrailing p (l ++ [c]) = l ++ [c] := by
  unfold dropTrailing
  rw [List.reverse_append]
  simp [List.dropWhile_cons, h]

/-- List-level core of C4: rstrip of whitespace and then of commas
removes a suffix of commas followed by whitespace, given the body
itself ends in neither. -/
theorem trim_data (bd cm ws : List Char)
    (h1 : dropTrailing isPyWs bd = bd)
    (h2 : dropTrailing (fun c => c == ',') bd = bd)
    (hc : ∀ c ∈ cm, c = ',') (hw : ∀ c ∈ ws, isPyWs c = true) :
    dropTrailing (fun c => c == ',') (dropTrailing isPyWs (bd ++ cm ++ ws)) = bd := by
  rw [dropTrailing_append_all isPyWs (bd ++ cm) ws hw]
  rcases List.eq_nil_or_concat cm with hnil | ⟨l2, a, rfl⟩
  · subst hnil
    rw [List.append_nil, h1, h2]
  · have ha : a = ',' := hc a (by simp)
    subst ha
    rw [List.concat_eq_append] at hc ⊢
    rw [show bd ++ (l2 ++ [',']) = (bd ++ l2) ++ [','] from by simp,
        dropTrailing_concat_stop isPyWs (bd ++ l2) ',' (by decide),
        show (bd ++ l2) ++ [','] = bd ++ (l2 ++ [',']) from by simp,
        dropTrailing_append_all (fun c => c == ',') bd (l2 ++ [','])
          (fun c hcm => beq_iff_eq.mpr (hc c hcm))]
    exact h2

/-- String-level core of C4: trimFragment removes a suffix of commas
followed by whitespace from a fragment that ends in neither. -/
theorem trimFragment_strips (body commas wsp : String)
    (h1 : pyRstripWs body = body) (h2 : pyRstripComma body = body)
    (hc : ∀ c ∈ commas.data, c = ',') (hw : ∀ c ∈ wsp.data, isPyWs c = true) :
    trimFragment (body ++ commas ++ wsp) = body := by
  have h1d : dropTrailing isPyWs body.data = body.data := congrArg String.data h1
  have h2d : dropTrailing (fun c => c == ',') body.data = body.data := congrArg String.data h2
  apply String.ext
  show (pyRstripComma (pyRstripWs (body ++ commas ++ wsp))).data = body.data
  simp only [pyRstripWs, pyRstripComma, String.data_append]
  exact trim_data body.data commas.data wsp.data h1d h2d hc hw

/-- C4 (amended): a fragment followed by trailing commas and then
trailing whitespace — rather than an arbitrary interleaving of the
two — trims back to the fragment, so the brace-wrapped trimmed string
parses to the same mapping as the fragment itself. -/
theorem trailing_separators_tolerated (body commas wsp : String) (m : PyJson)
    (h1 : pyRstripWs body = body) (h2 : pyRstripComma body = body)
    (hc : ∀ c ∈ commas.data, c = ',') (hw : ∀ c ∈ wsp.data, isPyWs c = true)
    (hp : parseJson (wrapBraces body) = some m) :
    trimFragment (body ++ commas ++ wsp) = body ∧
    parseJson (wrapBraces (trimFragment (body ++ commas ++ wsp))) = some m := by
  have key := trimFragment_strips body commas wsp h1 h2 hc hw
  refine ⟨key, ?_⟩
  rw [key]
  exact hp

/-- Witness for the amended C4 at a concrete fragment. -/
theorem trailing_separators_tolerated_witness :
    trimFragment ("\"a\": 1" ++ ",," ++ " \n") = "\"a\": 1" ∧
    parseJson (wrapBraces (trimFragment ("\"a\": 1" ++ ",," ++ " \n"))) =
      some (.obj [("a", .num 1)]) :=
  trailing_separators_tolerated "\"a\": 1" ",," " \n" (.obj [("a", .num 1)])
    rfl rfl (by decide) (by decide) rfl

/-- Counterexample to C4 as stated: the suffix comma-space-comma is an
interleaving of commas and whitespace, yet after the code's trimming
(whitespace first, then commas) a comma-space remnant survives, and the
brace-wrapped result no longer parses, while the fragment without its
trailing commas and whitespace does. -/
theorem trailing_separators_cex :
    (∀ c ∈ (", ," : String).data, c = ',' ∨ isPyWs c = true) ∧
    parseJson (wrapBraces "\"a\": 1") = some (.obj [("a", .num 1)]) ∧
    trimFragment ("\"a\": 1" ++ ", ,") = "\"a\": 1, " ∧
    parseJson (wrapBraces (trimFragment ("\"a\": 1" ++ ", ,"))) = none :=
  ⟨by decide, rfl, rfl, rfl⟩

/-! ## Claim C7: object-key uniqueness -/

/-- C7: two invocations of the object-key generation of upload_to_cos
with the same filename and the same key prefix but distinct generated
identifiers derive distinct object keys, although the filename
component is identical. -/
theorem cosObjectKey_uniq (p u1 u2 f : String) (h : u1 ≠ u2) :
    cosObjectKey p u1 f ≠ cosObjectKey p u2 f := by
  intro heq
  apply h
  have hd := congrArg String.data heq
  simp only [cosObjectKey, String.data_append] at hd
  have h1 := List.append_cancel_right hd
  have h2 := List.append_cancel_right h1
  exact String.ext (List.append_cancel_left h2)

/-- Witness for C7 at concrete inputs. -/
theorem cosObjectKey_uniq_witness :
    cosObjectKey "prefix0" "11111111-1111" "paper.pdf" ≠
      cosObjectKey "prefix0" "22222222-2222" "paper.pdf" :=
  cosObjectKey_uniq "prefix0" "11111111-1111" "22222222-2222" "paper.pdf" (by decide)

/-! ## Claim C8: object key and URL shape on upload success -/

/-- C8: for every credential structure and file path, on upload success
upload_to_cos returns the info whose key is keyPrefix/uuid/filename
(filename the basename of the path) and whose url is
https://cdnDomain/objectKey. -/
theorem upload_to_cos_success (w : World) (cd : CredentialData) (fp : String)
    (h : w.cosOutcome = .ok ()) :
    (upload_to_cos w cd fp).1 =
      some { url := "https://" ++ cd.cdnDomain ++ "/" ++
                    (cd.keyPrefix ++ "/" ++ w.uuid ++ "/" ++ basename fp)
             key := cd.keyPrefix ++ "/" ++ w.uuid ++ "/" ++ basename fp } := by
  simp [upload_to_cos, cosObjectKey, h]

/-- Witness for C8 at concrete inputs. -/
theorem upload_to_cos_success_witness :
    (upload_to_cos
      { fileExists := true, credResult := none, uuid := "u1", cosOutcome := .ok ()
        notifyResponse := none, llmFragment := "", submitResponse := none }
      { region := "ap-x", bucket := "b1", keyPrefix := "p", cdnDomain := "cdn.example.com"
        credentials := { tmpSecretId := "i", tmpSecretKey := "k", sessionToken := "t" } }
      "PDF/a.pdf").1 =
      some { url := "https://cdn.example.com/p/u1/a.pdf", key := "p/u1/a.pdf" } :=
  upload_to_cos_success _ _ _ rfl

/-! ## Claim C9: upload exceptions are converted to an absent result -/

/-- C9: for every credential structure and file path, when the storage
client upload raises, upload_to_cos returns None; since its return type
carries no exception, nothing propagates to the caller. -/
theorem upload_to_cos_exc (w : World) (cd : CredentialData) (fp : String)
    (e : String) (h : w.cosOutcome = .error e) :
    (upload_to_cos w cd fp).1 = none := by
  simp [upload_to_cos, h]

/-! ## Round-trip groundwork: whitespace and token lemmas

The dumps models are inverted by the loads model; these lemmas build
that up from characters to tokens. -/

/-- skipWs passes over an all-whitespace prefix. -/
theorem skipWs_append_all (u r : List Char) (h : ∀ c ∈ u, isJsonWs c = true) :
    skipWs (u ++ r) = skipWs r :=
  dropWhile_append_all isJsonWs u r h

/-- skipWs is the identity on input headed by a significant character. -/
theorem skipWs_cons_sig (c : Char) (r : List Char) (h : isJsonWs c = false) :
    skipWs (c :: r) = c :: r := by
  simp [skipWs, List.dropWhile_cons, h]

/-- Indentation is whitespace. -/
theorem indentChars_all_ws (lvl : Nat) : ∀ c ∈ indentChars lvl, isJsonWs c = true := by
  intro c hc
  rw [indentChars] at hc
  rw [List.eq_of_mem_replicate hc]
  rfl

/-- skipWs passes over indentation. -/
theorem skipWs_indent (lvl : Nat) (r : List Char) :
    skipWs (indentChars lvl ++ r) = skipWs r :=
  skipWs_append_all _ r (indentChars_all_ws lvl)

/-- A remainder that cannot extend an integer token: empty or headed by
a non-digit.  Every delimiter the serializers emit after a number
qualifies. -/
def numDelim : List Char → Bool
  | [] => true
  | c :: _ => !(isDigitChar c)

/-- numDelim holds when the head is no digit. -/
theorem numDelim_cons (c : Char) (l : List Char) (h : isDigitChar c = false) :
    numDelim (c :: l) = true := by
  simp [numDelim, h]

/-- Whitespace characters are not digits. -/
theorem ws_not_digit (c : Char) (h : isJsonWs c = true) : isDigitChar c = false := by
  simp only [isJsonWs, Bool.or_eq_true, beq_iff_eq] at h
  rcases h with ((rfl | rfl) | rfl) | rfl <;> decide

/-- The digit character of d < 10 is a digit character. -/
theorem digitChar_isDigit (d : Nat) (h : d < 10) : isDigitChar (Char.ofNat (48 + d)) = true := by
  interval_cases d <;> decide

/-- The digit character of d < 10 has code 48 + d. -/
theorem digitChar_toNat (d : Nat) (h : d < 10) : (Char.ofNat (48 + d)).toNat = 48 + d := by
  interval_cases d <;> decide

/-- The accumulator of natCharsCore rides along on the right. -/
theorem natCharsCore_acc : ∀ (f n : Nat) (acc : List Char),
    natCharsCore f n acc = natCharsCore f n [] ++ acc := by
  intro f
  induction f with
  | zero => intro n acc; rfl
  | succ f ih =>
    intro n acc
    by_cases h : n < 10
    · simp [natCharsCore, h]
    · simp only [natCharsCore, if_neg h]
      rw [ih (n / 10), ih (n / 10) (Char.ofNat (48 + n % 10) :: [])]
      simp

/-- natCharsCore does not depend on the fuel once it exceeds n. -/
theorem natCharsCore_fuel : ∀ (n f1 f2 : Nat) (acc : List Char), n < f1 → n < f2 →
    natCharsCore f1 n acc = natCharsCore f2 n acc := by
  intro n
  induction n using Nat.strong_induction_on with
  | _ n ih =>
    intro f1 f2 acc h1 h2
    cases f1 with
    | zero => omega
    | succ g1 =>
      cases f2 with
      | zero => omega
      | succ g2 =>
        by_cases h : n < 10
        · simp [natCharsCore, h]
        · simp only [natCharsCore, if_neg h]
          have hdiv : n / 10 < n := Nat.div_lt_self (by omega) (by omega)
          exact ih (n / 10) hdiv g1 g2 _ (by omega) (by omega)

/-- One last-digit-first unfolding of natChars. -/
theorem natChars_step (n : Nat) :
    natChars n = (if n < 10 then [] else natChars (n / 10)) ++ [Char.ofNat (48 + n % 10)] := by
  by_cases h : n < 10
  · simp only [if_pos h, List.nil_append]
    simp [natChars, natCharsCore, h]
  · simp only [if_neg h]
    have h1 : natChars n = natCharsCore n (n / 10) [Char.ofNat (48 + n % 10)] := by
      simp [natChars, natCharsCore, h]
    have hdiv : n / 10 < n := Nat.div_lt_self (by omega) (by omega)
    rw [h1, natCharsCore_acc]
    rw [natCharsCore_fuel (n / 10) n (n / 10 + 1) [] (by omega) (by omega)]
    rfl

/-- Every character natChars emits is a digit. -/
theorem natChars_digits : ∀ n, ∀ c ∈ natChars n, isDigitChar c = true := by
  intro n
  induction n using Nat.strong_induction_on with
  | _ n ih =>
    intro c hc
    rw [natChars_step] at hc
    rcases List.mem_append.mp hc with h | h
    · by_cases h10 : n < 10
      · simp [h10] at h
      · exact ih (n / 10) (Nat.div_lt_self (by omega) (by omega)) c (by simpa [h10] using h)
    · rw [List.mem_singleton] at h
      subst h
      exact digitChar_isDigit _ (Nat.mod_lt _ (by omega))

/-- natChars never emits the empty list. -/
theorem natChars_ne_nil (n : Nat) : natChars n ≠ [] := by
  rw [natChars_step]
  simp

/-- The digit run natChars emits evaluates back to n. -/
theorem natChars_val : ∀ n, digitsVal (natChars n) = n := by
  intro n
  induction n using Nat.strong_induction_on with
  | _ n ih =>
    rw [natChars_step]
    unfold digitsVal
    rw [List.foldl_append]
    by_cases h : n < 10
    · simp only [if_pos h, List.foldl_nil, List.foldl_cons]
      rw [digitChar_toNat (n % 10) (Nat.mod_lt _ (by omega))]
      omega
    · simp only [if_neg h, List.foldl_cons, List.foldl_nil]
      have hd := ih (n / 10) (Nat.div_lt_self (by omega) (by omega))
      unfold digitsVal at hd
      rw [hd, digitChar_toNat (n % 10) (Nat.mod_lt _ (by omega))]
      omega

/-- For positive n, natChars is headed by a nonzero digit. -/
theorem natChars_head_pos (n : Nat) (hp : 0 < n) :
    ∃ c t, natChars n = c :: t ∧ isDigitChar c = true ∧ c ≠ '0' := by
  induction n using Nat.strong_induction_on with
  | _ n ih =>
    rw [natChars_step]
    by_cases h10 : n < 10
    · refine ⟨Char.ofNat (48 + n % 10), [], by simp [h10], digitChar_isDigit _ (by omega), ?_⟩
      have hn : n % 10 = n := Nat.mod_eq_of_lt h10
      rw [hn]
      interval_cases n <;> decide
    · obtain ⟨c, t, hct, hd, h0⟩ :=
        ih (n / 10) (Nat.div_lt_self (by omega) (by omega)) (by omega)
      exact ⟨c, t ++ [Char.ofNat (48 + n % 10)], by simp [h10, hct], hd, h0⟩

/-- digitRun stops immediately at a delimiter. -/
theorem digitRun_stop (l : List Char) (h : numDelim l = true) : digitRun l = ([], l) := by
  cases l with
  | nil => rfl
  | cons c t =>
    have hc : isDigitChar c = false := by simpa [numDelim] using h
    simp [digitRun, hc]

/-- digitRun consumes exactly an all-digit prefix. -/
theorem digitRun_append (ds rest : List Char) (hds : ∀ c ∈ ds, isDigitChar c = true)
    (hrest : digitRun rest = ([], rest)) : digitRun (ds ++ rest) = (ds, rest) := by
  induction ds with
  | nil => simpa using hrest
  | cons c t ih =>
    have hc : isDigitChar c = true := hds c (by simp)
    have ht := ih (fun x hx => hds x (by simp [hx]))
    simp [digitRun, hc, ht]

/-- The unsigned-token codec round-trip. -/
theorem parseNatToken_natChars (n : Nat) (rest : List Char) (hr : numDelim rest = true) :
    parseNatToken (natChars n ++ rest) = some (n, rest) := by
  have hdr : digitRun (natChars n ++ rest) = (natChars n, rest) :=
    digitRun_append _ _ (natChars_digits n) (digitRun_stop rest hr)
  by_cases h0 : n = 0
  · subst h0
    have hdr0 : digitRun (natChars 0 ++ rest) = (['0'], rest) := by
      rw [hdr]
      rfl
    simp [parseNatToken, hdr0, digitsVal]
  · obtain ⟨c, t, hct, hd, hne⟩ := natChars_head_pos n (by omega)
    have hdr2 : digitRun (natChars n ++ rest) = (c :: t, rest) := by
      rw [hdr, hct]
    have hval : digitsVal (c :: t) = n := by
      rw [← hct, natChars_val]
    simp [parseNatToken, hdr2, hne, hval]

/-- One-step reduction of parseIntToken on a nonempty input. -/
theorem parseIntToken_cons (c : Char) (r : List Char) :
    parseIntToken (c :: r) =
      if c == '-' then (parseNatToken r).map (fun p => (-(p.1 : Int), p.2))
      else (parseNatToken (c :: r)).map (fun p => ((p.1 : Int), p.2)) := rfl

/-- The signed-token codec round-trip. -/
theorem parseIntToken_intChars (i : Int) (rest : List Char) (hr : numDelim rest = true) :
    parseIntToken (intChars i ++ rest) = some (i, rest) := by
  by_cases hneg : i < 0
  · rw [show intChars i = '-' :: natChars i.natAbs from by simp [intChars, hneg]]
    rw [List.cons_append]
    show (parseNatToken (natChars i.natAbs ++ rest)).map (fun p => (-(p.1 : Int), p.2)) =
      some (i, rest)
    rw [parseNatToken_natChars i.natAbs rest hr]
    show some (-(i.natAbs : Int), rest) = some (i, rest)
    have hv : -(i.natAbs : Int) = i := by omega
    rw [hv]
  · rw [show intChars i = natChars i.natAbs from by simp [intChars, hneg]]
    cases hn : natChars i.natAbs with
    | nil => exact absurd hn (natChars_ne_nil _)
    | cons c t =>
      have hd : isDigitChar c = true := natChars_digits _ c (by rw [hn]; simp)
      have hcm : (c == '-') = false := by
        simp only [beq_eq_false_iff_ne]
        intro hh
        subst hh
        exact absurd hd (by decide)
      rw [List.cons_append, parseIntToken_cons, if_neg (by simp [hcm])]
      rw [← List.cons_append, ← hn, parseNatToken_natChars i.natAbs rest hr]
      show some ((i.natAbs : Int), rest) = some (i, rest)
      have hv : ((i.natAbs : Int)) = i := by omega
      rw [hv]

/-- hexVal inverts hexDigitChar below 16. -/
theorem hexVal_hexDigitChar (d : Nat) (h : d < 16) : hexVal (hexDigitChar d) = some d := by
  interval_cases d <;> decide

/-- Parsing one escaped character undoes the escaping of that
character. -/
theorem parseStrBody_escapeChar (c : Char) (X : List Char) :
    parseStrBody (escapeChar c ++ X) = (parseStrBody X).map (fun p => (c :: p.1, p.2)) := by
  by_cases h1 : c = '"'
  · subst h1
    show parseStrBody ('\\' :: '"' :: X) = (parseStrBody X).map (fun p => ('"' :: p.1, p.2))
    rw [parseStrBody.eq_def]
    simp
  by_cases h2 : c = '\\'
  · subst h2
    show parseStrBody ('\\' :: '\\' :: X) = (parseStrBody X).map (fun p => ('\\' :: p.1, p.2))
    rw [parseStrBody.eq_def]
    simp
  by_cases h3 : c = '\n'
  · subst h3
    show parseStrBody ('\\' :: 'n' :: X) = (parseStrBody X).map (fun p => ('\n' :: p.1, p.2))
    rw [parseStrBody.eq_def]
    simp
  by_cases h4 : c = '\r'
  · subst h4
    show parseStrBody ('\\' :: 'r' :: X) = (parseStrBody X).map (fun p => ('\r' :: p.1, p.2))
    rw [parseStrBody.eq_def]
    simp
  by_cases h5 : c = '\t'
  · subst h5
    show parseStrBody ('\\' :: 't' :: X) = (parseStrBody X).map (fun p => ('\t' :: p.1, p.2))
    rw [parseStrBody.eq_def]
    simp
  have b1 : (c == '"') = false := beq_eq_false_iff_ne.mpr h1
  have b2 : (c == '\\') = false := beq_eq_false_iff_ne.mpr h2
  have b3 : (c == '\n') = false := beq_eq_false_iff_ne.mpr h3
  have b4 : (c == '\r') = false := beq_eq_false_iff_ne.mpr h4
  have b5 : (c == '\t') = false := beq_eq_false_iff_ne.mpr h5
  by_cases h6 : c.toNat = 8
  · have hc : c = '\x08' := by
      have h := Char.ofNat_toNat c
      rw [h6] at h
      exact h.symm
    subst hc
    show parseStrBody ('\\' :: 'b' :: X) = (parseStrBody X).map (fun p => ('\x08' :: p.1, p.2))
    rw [parseStrBody.eq_def]
    simp
  by_cases h7 : c.toNat = 12
  · have hc : c = '\x0c' := by
      have h := Char.ofNat_toNat c
      rw [h7] at h
      exact h.symm
    subst hc
    show parseStrBody ('\\' :: 'f' :: X) = (parseStrBody X).map (fun p => ('\x0c' :: p.1, p.2))
    rw [parseStrBody.eq_def]
    simp
  have h6c : ¬c = '\x08' := fun hh => h6 (by rw [hh]; rfl)
  have h7c : ¬c = '\x0c' := fun hh => h7 (by rw [hh]; rfl)
  by_cases h8 : c.toNat < 32
  · rw [show escapeChar c =
      ['\\', 'u', '0', '0', hexDigitChar (c.toNat / 16), hexDigitChar (c.toNat % 16)] from by
        simp [escapeChar, b1, b2, b3, b4, b5, h6c, h7c, h8]]
    have hx0 : hexVal '0' = some 0 := by decide
    have hx3 : hexVal (hexDigitChar (c.toNat / 16)) = some (c.toNat / 16) :=
      hexVal_hexDigitChar _ (by omega)
    have hx4 : hexVal (hexDigitChar (c.toNat % 16)) = some (c.toNat % 16) :=
      hexVal_hexDigitChar _ (by omega)
    have harith : ((0 * 16 + 0) * 16 + c.toNat / 16) * 16 + c.toNat % 16 = c.toNat := by omega
    have harith2 : c.toNat / 16 * 16 + c.toNat % 16 = c.toNat := by omega
    rw [show ('\\' :: 'u' :: '0' :: '0' :: hexDigitChar (c.toNat / 16) ::
          hexDigitChar (c.toNat % 16) :: []) ++ X =
        '\\' :: 'u' :: '0' :: '0' :: hexDigitChar (c.toNat / 16) ::
          hexDigitChar (c.toNat % 16) :: X from rfl]
    rw [parseStrBody.eq_def]
    simp [hx0, hx3, hx4, harith, harith2, Char.ofNat_toNat]
  · rw [show escapeChar c = [c] from by simp [escapeChar, b1, b2, b3, b4, b5, h6c, h7c, h8]]
    rw [List.singleton_append]
    rw [parseStrBody.eq_def]
    simp [b1, b2, h8]

/-- Parsing an escaped body stops exactly at the closing quote and
recovers the body. -/
theorem parseStrBody_escAll : ∀ (cs X : List Char),
    parseStrBody (escAll cs ++ '"' :: X) = some (cs, X) := by
  intro cs
  induction cs with
  | nil =>
    intro X
    show parseStrBody ('"' :: X) = some ([], X)
    rw [parseStrBody.eq_def]
    simp
  | cons c t ih =>
    intro X
    rw [show escAll (c :: t) = escapeChar c ++ escAll t from rfl, List.append_assoc,
        parseStrBody_escapeChar, ih]
    rfl

/-- A string literal followed by a continuation, re-associated for the
parser. -/
theorem quoteChars_append (cs X : List Char) :
    quoteChars cs ++ X = '"' :: (escAll cs ++ ('"' :: X)) := by
  simp [quoteChars]

/-- A digit character is not whitespace and is none of the structural
characters of the JSON grammar. -/
theorem digit_not_special (c : Char) (h : isDigitChar c = true) :
    isJsonWs c = false ∧ c ≠ ']' ∧ c ≠ '}' ∧ c ≠ ',' ∧ c ≠ 'n' ∧ c ≠ 't' ∧ c ≠ 'f' ∧
    c ≠ '"' ∧ c ≠ '[' ∧ c ≠ '{' ∧ c ≠ '-' := by
  refine ⟨?_, ?_, ?_, ?_, ?_, ?_, ?_, ?_, ?_, ?_, ?_⟩
  · cases hw : isJsonWs c with
    | false => rfl
    | true => rw [ws_not_digit c hw] at h; exact absurd h (by decide)
  all_goals (intro he; subst he; exact absurd h (by decide))

/-- natChars always produces a digit-headed list. -/
theorem natChars_head (n : Nat) :
    ∃ c t, natChars n = c :: t ∧ isDigitChar c = true := by
  cases hn : natChars n with
  | nil => exact absurd hn (natChars_ne_nil n)
  | cons c t => exact ⟨c, t, rfl, natChars_digits n c (by rw [hn]; simp)⟩

/-- Every rendered value of the indent serializer begins with a
significant character that closes no container. -/
theorem dumpsIndL_head (lvl : Nat) (j : PyJson) :
    ∃ c t, dumpsIndL lvl j = c :: t ∧ isJsonWs c = false ∧ c ≠ ']' ∧ c ≠ '}' := by
  have hok : ∀ c ∈ ['n', 't', 'f', '"', '[', '\x7b', '-'],
      isJsonWs c = false ∧ c ≠ ']' ∧ c ≠ '}' := by decide
  cases j with
  | num n =>
    by_cases hneg : n < 0
    · refine ⟨'-', natChars n.natAbs, ?_, hok '-' (by decide)⟩
      show intChars n = _
      simp [intChars, hneg]
    · obtain ⟨c, t, hct, hd⟩ := natChars_head n.natAbs
      obtain ⟨hw, hbr, hbc, _⟩ := digit_not_special c hd
      refine ⟨c, t, ?_, hw, hbr, hbc⟩
      show intChars n = _
      rw [show intChars n = natChars n.natAbs from by simp [intChars, hneg], hct]
  | null => exact ⟨'n', _, rfl, hok 'n' (by decide)⟩
  | bool b =>
    cases b
    case true => exact ⟨'t', _, rfl, hok 't' (by decide)⟩
    case false => exact ⟨'f', _, rfl, hok 'f' (by decide)⟩
  | str s => exact ⟨'"', _, rfl, hok '"' (by decide)⟩
  | arr xs =>
    cases xs
    case nil => exact ⟨'[', _, rfl, hok '[' (by decide)⟩
    case cons x t => exact ⟨'[', _, rfl, hok '[' (by decide)⟩
  | obj kvs =>
    cases kvs
    case nil => exact ⟨'\x7b', _, rfl, hok '\x7b' (by decide)⟩
    case cons e t => exact ⟨'\x7b', _, rfl, hok '\x7b' (by decide)⟩

/-! ## Fuel weights for the round trip -/

mutual
/-- Fuel needed by parseVal to consume a rendered value. -/
def jweight : PyJson → Nat
  | .null => 1
  | .bool _ => 1
  | .num _ => 1
  | .str _ => 1
  | .arr xs => jweightItems xs + 1
  | .obj kvs => jweightEntries kvs + 1
/-- Fuel needed by parseItems to consume rendered elements. -/
def jweightItems : List PyJson → Nat
  | [] => 1
  | x :: xs => jweight x + jweightItems xs + 1
/-- Fuel needed by parseEntries to consume rendered members. -/
def jweightEntries : List (String × PyJson) → Nat
  | [] => 1
  | (_, v) :: es => jweight v + jweightEntries es + 1
end

/-- Weights are positive. -/
theorem jweight_pos (j : PyJson) : 1 ≤ jweight j := by
  cases j <;> simp [jweight]

/-- Item weights are positive. -/
theorem jweightItems_pos (xs : List PyJson) : 1 ≤ jweightItems xs := by
  cases xs <;> simp [jweightItems]

/-- Entry weights are positive. -/
theorem jweightEntries_pos (es : List (String × PyJson)) : 1 ≤ jweightEntries es := by
  cases es with
  | nil => simp [jweightEntries]
  | cons e t => obtain ⟨k, v⟩ := e; simp [jweightEntries]

/-- intChars never emits the empty list. -/
theorem intChars_ne_nil (n : Int) : intChars n ≠ [] := by
  by_cases hneg : n < 0
  · simp [intChars, hneg]
  · simp only [intChars, if_neg hneg]
    exact natChars_ne_nil n.natAbs

mutual
/-- The fuel weight of a value is at most its rendered length. -/
theorem jweight_le_lenInd : ∀ (j : PyJson) (lvl : Nat), jweight j ≤ (dumpsIndL lvl j).length
  | .null, lvl => by simp [jweight, dumpsIndL]
  | .bool b, lvl => by cases b <;> simp [jweight, dumpsIndL]
  | .num n, lvl => by
    simp only [jweight, dumpsIndL]
    exact List.length_pos.mpr (intChars_ne_nil n)
  | .str s, lvl => by
    simp only [jweight, dumpsIndL, quoteChars, List.length_cons]
    omega
  | .arr [], lvl => by simp [jweight, jweightItems, dumpsIndL]
  | .arr (x :: xs), lvl => by
    have hx := jweight_le_lenInd x (lvl + 1)
    have hxs := jweightItems_le_lenSep xs (lvl + 1)
    simp only [jweight, jweightItems, dumpsIndL, dumpsIndItems, List.length_cons,
               List.length_append]
    omega
  | .obj [], lvl => by simp [jweight, jweightEntries, dumpsIndL]
  | .obj ((k, v) :: es), lvl => by
    have hv := jweight_le_lenInd v (lvl + 1)
    have hes := jweightEntries_le_lenSep es (lvl + 1)
    simp only [jweight, jweightEntries, dumpsIndL, dumpsIndEntries, List.length_cons,
               List.length_append]
    omega
termination_by j lvl => sizeOf j
/-- The fuel weight of an element list is at most its separator-form
rendered length plus two. -/
theorem jweightItems_le_lenSep : ∀ (xs : List PyJson) (lvl : Nat),
    jweightItems xs ≤ (dumpsIndItemsSep lvl xs).length + 2
  | [], lvl => by simp [jweightItems, dumpsIndItemsSep]
  | y :: ys, lvl => by
    have hy := jweight_le_lenInd y lvl
    have hys := jweightItems_le_lenSep ys lvl
    simp only [jweightItems, dumpsIndItemsSep, List.length_cons, List.length_append]
    omega
termination_by xs lvl => sizeOf xs
/-- The fuel weight of a member list is at most its separator-form
rendered length plus two. -/
theorem jweightEntries_le_lenSep : ∀ (es : List (String × PyJson)) (lvl : Nat),
    jweightEntries es ≤ (dumpsIndEntriesSep lvl es).length + 2
  | [], lvl => by simp [jweightEntries, dumpsIndEntriesSep]
  | (k, v) :: es, lvl => by
    have hv := jweight_le_lenInd v lvl
    have hes := jweightEntries_le_lenSep es lvl
    simp only [jweightEntries, dumpsIndEntriesSep, List.length_cons, List.length_append]
    omega
termination_by es lvl => sizeOf es
end

/-! ## Dict reconstruction lemmas -/

/-- Lookup skips an association list in which the key is absent. -/
theorem dictGet_append_none (a b : List (String × PyJson)) (k : String)
    (ha : dictGet a k = none) : dictGet (a ++ b) k = dictGet b k := by
  induction a with
  | nil => rfl
  | cons e r ih =>
    obtain ⟨k2, v2⟩ := e
    cases hbeq : k2 == k with
    | true => simp [dictGet, hbeq] at ha
    | false =>
      simp only [dictGet, hbeq] at ha
      simp only [List.cons_append, dictGet, hbeq]
      exact ih ha

/-- Assigning a fresh key appends the pair. -/
theorem dictSet_fresh (d : List (String × PyJson)) (k : String) (v : PyJson)
    (h : dictGet d k = none) : dictSet d k v = d ++ [(k, v)] := by
  induction d with
  | nil => rfl
  | cons e r ih =>
    obtain ⟨k2, v2⟩ := e
    cases hbeq : k2 == k with
    | true => simp [dictGet, hbeq] at h
    | false =>
      simp only [dictGet, hbeq, Bool.false_eq_true, if_false] at h
      simp [dictSet, hbeq, ih h]

/-- A key present in an association list has a non-absent lookup. -/
theorem dictGet_of_mem (l : List (String × PyJson)) (k : String) (v : PyJson)
    (h : (k, v) ∈ l) : dictGet l k ≠ none := by
  induction l with
  | nil => simp at h
  | cons e r ih =>
    obtain ⟨k2, v2⟩ := e
    cases hbeq : k2 == k with
    | true => simp [dictGet, hbeq]
    | false =>
      simp only [dictGet, hbeq, Bool.false_eq_true, if_false]
      rcases List.mem_cons.mp h with he | he
      · cases he
        simp at hbeq
      · exact ih he

/-- Building a dict from pairwise-fresh pairs over a disjoint
accumulator appends them in order. -/
theorem foldl_dictSet_fresh : ∀ (l d : List (String × PyJson)),
    (∀ p ∈ l, dictGet d p.1 = none) → jsonWFEntries l = true →
    List.foldl (fun d2 kv => dictSet d2 kv.1 kv.2) d l = d ++ l := by
  intro l
  induction l with
  | nil => intro d _ _; simp
  | cons e t ih =>
    obtain ⟨k, v⟩ := e
    intro d hdisj hwf
    have hwf3 : (dictGet t k = none ∧ jsonWF v = true) ∧ jsonWFEntries t = true := by
      simpa [jsonWFEntries, Bool.and_eq_true] using hwf
    have hk : dictGet t k = none := hwf3.1.1
    simp only [List.foldl_cons]
    rw [dictSet_fresh d k v (hdisj (k, v) (by simp))]
    rw [ih (d ++ [(k, v)]) ?_ hwf3.2]
    · simp
    · intro p hp
      rw [dictGet_append_none _ _ _ (hdisj p (by simp [hp]))]
      have hne : (k == p.1) = false := by
        apply beq_eq_false_iff_ne.mpr
        intro he
        subst he
        exact absurd hk (dictGet_of_mem t p.1 p.2 (by simpa using hp))
      simp [dictGet, hne]

/-- json.loads dict construction is the identity on wellformed entry
lists (the keys are already unique). -/
theorem dictOfPairs_of_wf (l : List (String × PyJson)) (hwf : jsonWFEntries l = true) :
    dictOfPairs l = l := by
  unfold dictOfPairs
  rw [foldl_dictSet_fresh l [] (fun p _ => rfl) hwf]
  rfl

/-- Values stored in a wellformed entry list are wellformed. -/
theorem jsonWF_dictGet (l : List (String × PyJson)) (k : String) (j : PyJson)
    (hwf : jsonWFEntries l = true) (h : dictGet l k = some j) : jsonWF j = true := by
  induction l with
  | nil => simp [dictGet] at h
  | cons e r ih =>
    obtain ⟨k2, v2⟩ := e
    have hwf3 : (dictGet r k2 = none ∧ jsonWF v2 = true) ∧ jsonWFEntries r = true := by
      simpa [jsonWFEntries, Bool.and_eq_true] using hwf
    cases hbeq : k2 == k with
    | true =>
      simp only [dictGet, hbeq, if_true] at h
      injection h with h2
      rw [← h2]
      exact hwf3.1.2
    | false =>
      simp only [dictGet, hbeq, Bool.false_eq_true, if_false] at h
      exact ih hwf3.2 h

/-- A dict with a successful lookup is truthy. -/
theorem jsonTruthy_obj_of_get (l : List (String × PyJson)) (k : String) (v : PyJson)
    (h : dictGet l k = some v) : jsonTruthy (PyJson.obj l) = true := by
  cases l with
  | nil => simp [dictGet] at h
  | cons e r => simp [jsonTruthy]

/-! ## Round-trip: parser-side head dispatch -/

/-- A value headed by a minus sign or a digit is parsed through
parseIntToken. -/
theorem parseVal_num_input (g : Nat) (c : Char) (r : List Char)
    (hn : (c == 'n') = false) (ht : (c == 't') = false) (hf : (c == 'f') = false)
    (hq : (c == '"') = false) (hbk : (c == '[') = false) (hbc : (c == '{') = false) :
    parseVal (g + 1) (c :: r) = (parseIntToken (c :: r)).map (fun p => (.num p.1, p.2)) := by
  rw [parseVal.eq_def]
  simp [hn, ht, hf, hq, hbk, hbc]

/-- The head of a rendered integer. -/
theorem intChars_head (n : Int) :
    ∃ c t, intChars n = c :: t ∧ (c = '-' ∨ isDigitChar c = true) := by
  by_cases hneg : n < 0
  · exact ⟨'-', natChars n.natAbs, by simp [intChars, hneg], Or.inl rfl⟩
  · obtain ⟨c, t, hct, hd⟩ := natChars_head n.natAbs
    exact ⟨c, t, by simp [intChars, hneg, hct], Or.inr hd⟩

/-- Guard facts for a number head against the other grammar starters. -/
theorem num_head_guards (c : Char) (h : c = '-' ∨ isDigitChar c = true) :
    (c == 'n') = false ∧ (c == 't') = false ∧ (c == 'f') = false ∧
    (c == '"') = false ∧ (c == '[') = false ∧ (c == '{') = false ∧ isJsonWs c = false := by
  rcases h with rfl | hd
  · exact ⟨by decide, by decide, by decide, by decide, by decide, by decide, by decide⟩
  · obtain ⟨hw, _, _, _, hn, ht, hf, hq, hbk, hbc, _⟩ := digit_not_special c hd
    exact ⟨beq_eq_false_iff_ne.mpr hn, beq_eq_false_iff_ne.mpr ht, beq_eq_false_iff_ne.mpr hf,
           beq_eq_false_iff_ne.mpr hq, beq_eq_false_iff_ne.mpr hbk, beq_eq_false_iff_ne.mpr hbc,
           hw⟩

/-- skipWs passes over one whitespace character. -/
theorem skipWs_cons_ws (c : Char) (l : List Char) (h : isJsonWs c = true) :
    skipWs (c :: l) = skipWs l := by
  simp [skipWs, List.dropWhile_cons, h]

/-- Reduction of parseVal on a null literal. -/
theorem parseVal_null_input (g : Nat) (rest : List Char) :
    parseVal (g + 1) ('n' :: 'u' :: 'l' :: 'l' :: rest) = some (.null, rest) := by
  rw [parseVal.eq_def]
  simp

/-- Reduction of parseVal on a true literal. -/
theorem parseVal_true_input (g : Nat) (rest : List Char) :
    parseVal (g + 1) ('t' :: 'r' :: 'u' :: 'e' :: rest) = some (.bool true, rest) := by
  rw [parseVal.eq_def]
  simp

/-- Reduction of parseVal on a false literal. -/
theorem parseVal_false_input (g : Nat) (rest : List Char) :
    parseVal (g + 1) ('f' :: 'a' :: 'l' :: 's' :: 'e' :: rest) = some (.bool false, rest) := by
  rw [parseVal.eq_def]
  simp

/-- Reduction of parseVal on a string opener. -/
theorem parseVal_str_input (g : Nat) (r : List Char) :
    parseVal (g + 1) ('"' :: r) = (parseStrBody r).map (fun p => (.str (String.mk p.1), p.2)) := by
  rw [parseVal.eq_def]
  simp

/-- Reduction of parseVal on an array opener. -/
theorem parseVal_arr_input (g : Nat) (r : List Char) :
    parseVal (g + 1) ('[' :: r) =
      (match skipWs r with
       | [] => none
       | c2 :: r2 =>
         if c2 == ']' then some (.arr [], r2)
         else (parseItems g (c2 :: r2)).map (fun p => (.arr p.1, p.2))) := by
  rw [parseVal.eq_def]
  simp

/-- Reduction of parseVal on an object opener. -/
theorem parseVal_obj_input (g : Nat) (r : List Char) :
    parseVal (g + 1) ('{' :: r) =
      (match skipWs r with
       | [] => none
       | c2 :: r2 =>
         if c2 == '}' then some (.obj [], r2)
         else (parseEntries g (c2 :: r2)).map (fun p => (.obj (dictOfPairs p.1), p.2))) := by
  rw [parseVal.eq_def]
  simp

/-- One-step reduction of parseItems at successor fuel. -/
theorem parseItems_step (g : Nat) (s : List Char) :
    parseItems (g + 1) s =
      (match parseVal g s with
       | none => none
       | some (x, r) =>
         match skipWs r with
         | [] => none
         | c :: r2 =>
           if c == ',' then (parseItems g (skipWs r2)).map (fun p => (x :: p.1, p.2))
           else if c == ']' then some ([x], r2)
           else none) := by
  rw [parseItems.eq_def]

/-- One-step reduction of parseEntries at successor fuel. -/
theorem parseEntries_step (g : Nat) (s : List Char) :
    parseEntries (g + 1) s =
      (match s with
       | [] => none
       | c :: r =>
         if c == '"' then
           match parseStrBody r with
           | none => none
           | some (kcs, r1) =>
             match skipWs r1 with
             | [] => none
             | c2 :: r2 =>
               if c2 == ':' then
                 match parseVal g (skipWs r2) with
                 | none => none
                 | some (v, r3) =>
                   match skipWs r3 with
                   | [] => none
                   | c3 :: r4 =>
                     if c3 == ',' then
                       (parseEntries g (skipWs r4)).map
                         (fun p => ((String.mk kcs, v) :: p.1, p.2))
                     else if c3 == '}' then some ([(String.mk kcs, v)], r4)
                     else none
               else none
         else none) := by
  rw [parseEntries.eq_def]

/-- Reduction of parseEntries on a rendered key. -/
theorem parseEntries_key (g : Nat) (body X : List Char) :
    parseEntries (g + 1) ('"' :: (escAll body ++ ('"' :: X))) =
      (match skipWs X with
       | [] => none
       | c2 :: r2 =>
         if c2 == ':' then
           match parseVal g (skipWs r2) with
           | none => none
           | some (v, r3) =>
             match skipWs r3 with
             | [] => none
             | c3 :: r4 =>
               if c3 == ',' then
                 (parseEntries g (skipWs r4)).map (fun p => ((String.mk body, v) :: p.1, p.2))
               else if c3 == '}' then some ([(String.mk body, v)], r4)
               else none
         else none) := by
  rw [parseEntries_step g]
  simp only [show (('"' : Char) == '"') = true from rfl, if_true, parseStrBody_escAll]

/-! ## The round trip of the indent serializer -/

/-- The three round-trip statements, tied together over the fuel: the
parser inverts the indent=2 serializer on wellformed values. -/
theorem rtAll : ∀ f : Nat,
    (∀ (j : PyJson) (lvl : Nat) (rest : List Char),
      jweight j ≤ f → jsonWF j = true → numDelim rest = true →
      parseVal f (dumpsIndL lvl j ++ rest) = some (j, rest)) ∧
    (∀ (x : PyJson) (xs : List PyJson) (lvl : Nat) (u rest : List Char),
      jweightItems (x :: xs) ≤ f → jsonWFList (x :: xs) = true →
      (∀ c ∈ u, isJsonWs c = true) →
      parseItems f (dumpsIndL lvl x ++ (dumpsIndItemsSep lvl xs ++ (u ++ ']' :: rest))) =
        some (x :: xs, rest)) ∧
    (∀ (k : String) (v : PyJson) (es : List (String × PyJson)) (lvl : Nat) (u rest : List Char),
      jweightEntries ((k, v) :: es) ≤ f → jsonWFEntries ((k, v) :: es) = true →
      (∀ c ∈ u, isJsonWs c = true) →
      parseEntries f
          (quoteChars k.data ++
            (':' :: ' ' :: (dumpsIndL lvl v ++ (dumpsIndEntriesSep lvl es ++ (u ++ '}' :: rest))))) =
        some ((k, v) :: es, rest)) := by
  intro f
  induction f using Nat.strong_induction_on with
  | _ f ih =>
    refine ⟨?_, ?_, ?_⟩
    · -- parseVal part
      intro j lvl rest hw hwf hdel
      cases f with
      | zero => exact absurd hw (by have := jweight_pos j; omega)
      | succ g =>
        obtain ⟨ihV, ihI, ihE⟩ := ih g (Nat.lt_succ_self g)
        cases j with
        | null =>
          rw [show dumpsIndL lvl PyJson.null ++ rest = 'n' :: 'u' :: 'l' :: 'l' :: rest from rfl]
          exact parseVal_null_input g rest
        | bool b =>
          cases b with
          | true =>
            rw [show dumpsIndL lvl (PyJson.bool true) ++ rest =
              't' :: 'r' :: 'u' :: 'e' :: rest from rfl]
            exact parseVal_true_input g rest
          | false =>
            rw [show dumpsIndL lvl (PyJson.bool false) ++ rest =
              'f' :: 'a' :: 'l' :: 's' :: 'e' :: rest from rfl]
            exact parseVal_false_input g rest
        | num n =>
          rw [show dumpsIndL lvl (PyJson.num n) = intChars n from rfl]
          obtain ⟨c, t, hct, hcls⟩ := intChars_head n
          obtain ⟨g1, g2, g3, g4, g5, g6, _⟩ := num_head_guards c hcls
          rw [hct, List.cons_append, parseVal_num_input g c (t ++ rest) g1 g2 g3 g4 g5 g6,
              ← List.cons_append, ← hct, parseIntToken_intChars n rest hdel]
          rfl
        | str s =>
          rw [show dumpsIndL lvl (PyJson.str s) = quoteChars s.data from rfl,
              quoteChars_append, parseVal_str_input g, parseStrBody_escAll]
          rfl
        | arr xs =>
          cases xs with
          | nil =>
            rw [show dumpsIndL lvl (PyJson.arr []) ++ rest = '[' :: ']' :: rest from rfl,
                parseVal_arr_input g]
            rw [skipWs_cons_sig ']' rest (by decide)]
            simp
          | cons x xs =>
            have hfx : jweightItems (x :: xs) ≤ g := by
              have : jweight (PyJson.arr (x :: xs)) = jweightItems (x :: xs) + 1 := by
                simp [jweight]
              omega
            have hwfl : jsonWFList (x :: xs) = true := by
              simpa [jsonWF] using hwf
            have harr : dumpsIndL lvl (PyJson.arr (x :: xs)) ++ rest =
                '[' :: '\n' :: (indentChars (lvl + 1) ++ (dumpsIndL (lvl + 1) x ++
                  (dumpsIndItemsSep (lvl + 1) xs ++
                    ('\n' :: indentChars lvl ++ (']' :: rest))))) := by
              rw [show dumpsIndL lvl (PyJson.arr (x :: xs)) =
                '[' :: '\n' :: (dumpsIndItems (lvl + 1) (x :: xs) ++
                  '\n' :: (indentChars lvl ++ [']'])) from rfl]
              rw [show dumpsIndItems (lvl + 1) (x :: xs) =
                indentChars (lvl + 1) ++ (dumpsIndL (lvl + 1) x ++ dumpsIndItemsSep (lvl + 1) xs)
                from rfl]
              simp [List.append_assoc]
            rw [harr, parseVal_arr_input g]
            obtain ⟨c, t, hct, hcw, hcbr, _⟩ := dumpsIndL_head (lvl + 1) x
            have hskip : skipWs ('\n' :: (indentChars (lvl + 1) ++ (dumpsIndL (lvl + 1) x ++
                (dumpsIndItemsSep (lvl + 1) xs ++ ('\n' :: indentChars lvl ++ (']' :: rest)))))) =
                c :: (t ++ (dumpsIndItemsSep (lvl + 1) xs ++
                  ('\n' :: indentChars lvl ++ (']' :: rest)))) := by
              rw [skipWs_cons_ws '\n' _ (by decide), skipWs_indent, hct, List.cons_append,
                  skipWs_cons_sig c _ hcw]
            rw [hskip]
            have hkey := ihI x xs (lvl + 1) ('\n' :: indentChars lvl) rest hfx hwfl
              (by
                intro c2 hc2
                rcases List.mem_cons.mp hc2 with rfl | hc2
                · decide
                · exact indentChars_all_ws lvl c2 hc2)
            rw [show ('\n' :: indentChars lvl) ++ (']' :: rest) =
              '\n' :: indentChars lvl ++ (']' :: rest) from rfl] at hkey
            rw [hct, List.cons_append] at hkey
            simp only [beq_eq_false_iff_ne.mpr hcbr, Bool.false_eq_true, if_false]
            rw [hkey]
            rfl
        | obj kvs =>
          cases kvs with
          | nil =>
            rw [show dumpsIndL lvl (PyJson.obj []) ++ rest = '{' :: '}' :: rest from rfl,
                parseVal_obj_input g]
            rw [skipWs_cons_sig '}' rest (by decide)]
            simp
          | cons e es =>
            obtain ⟨k, v⟩ := e
            have hfv : jweightEntries ((k, v) :: es) ≤ g := by
              have : jweight (PyJson.obj ((k, v) :: es)) = jweightEntries ((k, v) :: es) + 1 := by
                simp [jweight]
              omega
            have hwfe : jsonWFEntries ((k, v) :: es) = true := by
              simpa [jsonWF] using hwf
            have hobj : dumpsIndL lvl (PyJson.obj ((k, v) :: es)) ++ rest =
                '{' :: '\n' :: (indentChars (lvl + 1) ++ (quoteChars k.data ++
                  (':' :: ' ' :: (dumpsIndL (lvl + 1) v ++ (dumpsIndEntriesSep (lvl + 1) es ++
                    ('\n' :: indentChars lvl ++ ('}' :: rest))))))) := by
              rw [show dumpsIndL lvl (PyJson.obj ((k, v) :: es)) =
                '{' :: '\n' :: (dumpsIndEntries (lvl + 1) ((k, v) :: es) ++
                  '\n' :: (indentChars lvl ++ ['}'])) from rfl]
              rw [show dumpsIndEntries (lvl + 1) ((k, v) :: es) =
                indentChars (lvl + 1) ++ (quoteChars k.data ++
                  ':' :: ' ' :: (dumpsIndL (lvl + 1) v ++ dumpsIndEntriesSep (lvl + 1) es))
                from rfl]
              simp [List.append_assoc]
            rw [hobj, parseVal_obj_input g]
            have hskip : skipWs ('\n' :: (indentChars (lvl + 1) ++ (quoteChars k.data ++
                (':' :: ' ' :: (dumpsIndL (lvl + 1) v ++ (dumpsIndEntriesSep (lvl + 1) es ++
                  ('\n' :: indentChars lvl ++ ('}' :: rest)))))))) =
                '"' :: (escAll k.data ++ ('"' :: (':' :: ' ' :: (dumpsIndL (lvl + 1) v ++
                  (dumpsIndEntriesSep (lvl + 1) es ++
                    ('\n' :: indentChars lvl ++ ('}' :: rest))))))) := by
              rw [skipWs_cons_ws '\n' _ (by decide), skipWs_indent, quoteChars_append,
                  skipWs_cons_sig '"' _ (by decide)]
            rw [hskip]
            have hkey := ihE k v es (lvl + 1) ('\n' :: indentChars lvl) rest hfv hwfe
              (by
                intro c2 hc2
                rcases List.mem_cons.mp hc2 with rfl | hc2
                · decide
                · exact indentChars_all_ws lvl c2 hc2)
            rw [show ('\n' :: indentChars lvl) ++ ('}' :: rest) =
              '\n' :: indentChars lvl ++ ('}' :: rest) from rfl] at hkey
            rw [quoteChars_append] at hkey
            simp only [show (('"' : Char) == '}') = false from by decide, Bool.false_eq_true,
                       if_false]
            rw [hkey]
            show some (PyJson.obj (dictOfPairs ((k, v) :: es)), rest) =
              some (PyJson.obj ((k, v) :: es), rest)
            rw [dictOfPairs_of_wf ((k, v) :: es) hwfe]
    · -- parseItems part
      intro x xs lvl u rest hwt hwfl hu
      cases f with
      | zero => exact absurd hwt (by have := jweightItems_pos (x :: xs); omega)
      | succ g =>
        obtain ⟨ihV, ihI, ihE⟩ := ih g (Nat.lt_succ_self g)
        have hwx : jsonWF x = true ∧ jsonWFList xs = true := by
          simpa [jsonWFList, Bool.and_eq_true] using hwfl
        have hfx : jweight x ≤ g := by
          have h1 : jweightItems (x :: xs) = jweight x + jweightItems xs + 1 := by
            simp [jweightItems]
          have h2 := jweightItems_pos xs
          omega
        have hdel2 : numDelim (dumpsIndItemsSep lvl xs ++ (u ++ ']' :: rest)) = true := by
          cases xs with
          | nil =>
            rw [show dumpsIndItemsSep lvl ([] : List PyJson) = [] from rfl, List.nil_append]
            cases u with
            | nil => exact numDelim_cons ']' rest (by decide)
            | cons cu tu =>
              exact numDelim_cons cu _ (ws_not_digit cu (hu cu (by simp)))
          | cons y ys =>
            exact numDelim_cons ',' _ (by decide)
        have hV := ihV x lvl (dumpsIndItemsSep lvl xs ++ (u ++ ']' :: rest)) hfx hwx.1 hdel2
        rw [parseItems_step g]
        cases xs with
        | nil =>
          have hsw : skipWs (dumpsIndItemsSep lvl ([] : List PyJson) ++ (u ++ ']' :: rest)) =
              ']' :: rest := by
            rw [show dumpsIndItemsSep lvl ([] : List PyJson) = [] from rfl, List.nil_append,
                skipWs_append_all u _ hu, skipWs_cons_sig ']' rest (by decide)]
          simp only [hV, hsw]
          simp
        | cons y ys =>
          have hfy : jweightItems (y :: ys) ≤ g := by
            have h1 : jweightItems (x :: y :: ys) =
                jweight x + jweightItems (y :: ys) + 1 := by
              simp [jweightItems]
            have h2 := jweight_pos x
            omega
          have hsw : skipWs (dumpsIndItemsSep lvl (y :: ys) ++ (u ++ ']' :: rest)) =
              ',' :: ('\n' :: (indentChars lvl ++ (dumpsIndL lvl y ++
                (dumpsIndItemsSep lvl ys ++ (u ++ ']' :: rest))))) := by
            rw [show dumpsIndItemsSep lvl (y :: ys) ++ (u ++ ']' :: rest) =
              ',' :: ('\n' :: (indentChars lvl ++ (dumpsIndL lvl y ++
                (dumpsIndItemsSep lvl ys ++ (u ++ ']' :: rest))))) from by
              rw [show dumpsIndItemsSep lvl (y :: ys) =
                ',' :: '\n' :: (indentChars lvl ++ (dumpsIndL lvl y ++ dumpsIndItemsSep lvl ys))
                from rfl]
              simp [List.append_assoc]]
            exact skipWs_cons_sig ',' _ (by decide)
          have hskip2 : skipWs ('\n' :: (indentChars lvl ++ (dumpsIndL lvl y ++
              (dumpsIndItemsSep lvl ys ++ (u ++ ']' :: rest))))) =
              dumpsIndL lvl y ++ (dumpsIndItemsSep lvl ys ++ (u ++ ']' :: rest)) := by
            obtain ⟨c, t, hct, hcw, _, _⟩ := dumpsIndL_head lvl y
            rw [skipWs_cons_ws '\n' _ (by decide), skipWs_indent, hct, List.cons_append,
                skipWs_cons_sig c _ hcw, ← List.cons_append, ← hct]
          simp only [hV, hsw]
          simp only [show ((',' : Char) == ',') = true from rfl, if_true]
          rw [hskip2, ihI y ys lvl u rest hfy hwx.2 hu]
          rfl
    · -- parseEntries part
      intro k v es lvl u rest hwt hwfe hu
      cases f with
      | zero => exact absurd hwt (by have := jweightEntries_pos ((k, v) :: es); omega)
      | succ g =>
        obtain ⟨ihV, ihI, ihE⟩ := ih g (Nat.lt_succ_self g)
        have hwv : (dictGet es k = none ∧ jsonWF v = true) ∧ jsonWFEntries es = true := by
          simpa [jsonWFEntries, Bool.and_eq_true] using hwfe
        have hfv : jweight v ≤ g := by
          have h1 : jweightEntries ((k, v) :: es) = jweight v + jweightEntries es + 1 := by
            simp [jweightEntries]
          have h2 := jweightEntries_pos es
          omega
        have hdel2 : numDelim (dumpsIndEntriesSep lvl es ++ (u ++ '}' :: rest)) = true := by
          cases es with
          | nil =>
            rw [show dumpsIndEntriesSep lvl ([] : List (String × PyJson)) = [] from rfl,
                List.nil_append]
            cases u with
            | nil => exact numDelim_cons '}' rest (by decide)
            | cons cu tu =>
              exact numDelim_cons cu _ (ws_not_digit cu (hu cu (by simp)))
          | cons e2 es2 =>
            obtain ⟨k2, v2⟩ := e2
            exact numDelim_cons ',' _ (by decide)
        have hV := ihV v lvl (dumpsIndEntriesSep lvl es ++ (u ++ '}' :: rest)) hfv hwv.1.2 hdel2
        rw [quoteChars_append, parseEntries_key g k.data]
        have hsw1 : skipWs (':' :: ' ' :: (dumpsIndL lvl v ++ (dumpsIndEntriesSep lvl es ++
            (u ++ '}' :: rest)))) = ':' :: ' ' :: (dumpsIndL lvl v ++
            (dumpsIndEntriesSep lvl es ++ (u ++ '}' :: rest))) :=
          skipWs_cons_sig ':' _ (by decide)
        have hskipv : skipWs (' ' :: (dumpsIndL lvl v ++ (dumpsIndEntriesSep lvl es ++
            (u ++ '}' :: rest)))) =
            dumpsIndL lvl v ++ (dumpsIndEntriesSep lvl es ++ (u ++ '}' :: rest)) := by
          obtain ⟨c, t, hct, hcw, _, _⟩ := dumpsIndL_head lvl v
          rw [skipWs_cons_ws ' ' _ (by decide), hct, List.cons_append,
              skipWs_cons_sig c _ hcw, ← List.cons_append, ← hct]
        simp only [hsw1, show ((':' : Char) == ':') = true from rfl, if_true, hskipv, hV]
        cases es with
        | nil =>
          have hsw : skipWs (dumpsIndEntriesSep lvl ([] : List (String × PyJson)) ++
              (u ++ '}' :: rest)) = '}' :: rest := by
            rw [show dumpsIndEntriesSep lvl ([] : List (String × PyJson)) = [] from rfl,
                List.nil_append, skipWs_append_all u _ hu, skipWs_cons_sig '}' rest (by decide)]
          simp only [hsw]
          simp
        | cons e2 es2 =>
          obtain ⟨k2, v2⟩ := e2
          have hfe2 : jweightEntries ((k2, v2) :: es2) ≤ g := by
            have h1 : jweightEntries ((k, v) :: (k2, v2) :: es2) =
                jweight v + jweightEntries ((k2, v2) :: es2) + 1 := by
              simp [jweightEntries]
            have h2 := jweight_pos v
            omega
          have hsw : skipWs (dumpsIndEntriesSep lvl ((k2, v2) :: es2) ++ (u ++ '}' :: rest)) =
              ',' :: ('\n' :: (indentChars lvl ++ (quoteChars k2.data ++
                (':' :: ' ' :: (dumpsIndL lvl v2 ++ (dumpsIndEntriesSep lvl es2 ++
                  (u ++ '}' :: rest))))))) := by
            rw [show dumpsIndEntriesSep lvl ((k2, v2) :: es2) ++ (u ++ '}' :: rest) =
              ',' :: ('\n' :: (indentChars lvl ++ (quoteChars k2.data ++
                (':' :: ' ' :: (dumpsIndL lvl v2 ++ (dumpsIndEntriesSep lvl es2 ++
                  (u ++ '}' :: rest))))))) from by
              rw [show dumpsIndEntriesSep lvl ((k2, v2) :: es2) =
                ',' :: '\n' :: (indentChars lvl ++ (quoteChars k2.data ++
                  ':' :: ' ' :: (dumpsIndL lvl v2 ++ dumpsIndEntriesSep lvl es2))) from rfl]
              simp [List.append_assoc]]
            exact skipWs_cons_sig ',' _ (by decide)
          have hskip2 : skipWs ('\n' :: (indentChars lvl ++ (quoteChars k2.data ++
              (':' :: ' ' :: (dumpsIndL lvl v2 ++ (dumpsIndEntriesSep lvl es2 ++
                (u ++ '}' :: rest))))))) =
              quoteChars k2.data ++ (':' :: ' ' :: (dumpsIndL lvl v2 ++
                (dumpsIndEntriesSep lvl es2 ++ (u ++ '}' :: rest)))) := by
            rw [skipWs_cons_ws '\n' _ (by decide), skipWs_indent, quoteChars_append,
                skipWs_cons_sig '"' _ (by decide), ← quoteChars_append]
          simp only [hsw, show ((',' : Char) == ',') = true from rfl, if_true]
          rw [hskip2, ihE k2 v2 es2 lvl u rest hfe2 hwv.2 hu]
          rfl

/-- json.loads inverts json.dumps(..., indent=2) on every wellformed
value, including the leading space the attachment fragment carries
after its colon. -/
theorem parseJson_dumpsIndent (d : PyJson) (hwf : jsonWF d = true) :
    parseJson (" " ++ dumpsIndent d) = some d := by
  unfold parseJson
  have hdata : (" " ++ dumpsIndent d).data = ' ' :: dumpsIndL 0 d := by
    rw [String.data_append]
    rfl
  rw [hdata]
  obtain ⟨c, t, hct, hcw, _, _⟩ := dumpsIndL_head 0 d
  have hskip : skipWs (' ' :: dumpsIndL 0 d) = dumpsIndL 0 d := by
    rw [skipWs_cons_ws ' ' _ (by decide), hct]
    exact skipWs_cons_sig c t hcw
  rw [hskip]
  have hfuel : jweight d ≤ (dumpsIndL 0 d).length + 1 := by
    have := jweight_le_lenInd d 0
    omega
  have hrt := (rtAll ((dumpsIndL 0 d).length + 1)).1 d 0 [] hfuel hwf rfl
  rw [List.append_nil] at hrt
  rw [hrt]
  rfl

/-- Splitting the attachment fragment at its first colon separates the
quoted key from the serialized value. -/
theorem splitOnceColon_attachments (t : String) :
    splitOnceColon ("\"attachments\": " ++ t) = ("\"attachments\"", some (" " ++ t)) := by
  have hd : ("\"attachments\": " ++ t).data =
      '"' :: 'a' :: 't' :: 't' :: 'a' :: 'c' :: 'h' :: 'm' :: 'e' :: 'n' :: 't' :: 's' :: '"' ::
      ':' :: ' ' :: t.data := by
    rw [String.data_append]
    rfl
  unfold splitOnceColon
  rw [hd]
  rw [show splitOnceAux ('"' :: 'a' :: 't' :: 't' :: 'a' :: 'c' :: 'h' :: 'm' :: 'e' :: 'n' ::
      't' :: 's' :: '"' :: ':' :: ' ' :: t.data) =
      (['"', 'a', 't', 't', 'a', 'c', 'h', 'm', 'e', 'n', 't', 's', '"'],
       some (' ' :: t.data)) from by simp [splitOnceAux]]
  have h2 : String.mk (' ' :: t.data) = " " ++ t := by
    apply String.ext
    rw [String.data_append]
    rfl
  simp [h2]

/-- Witness for C9 at concrete inputs. -/
theorem upload_to_cos_exc_witness :
    (upload_to_cos
      { fileExists := true, credResult := none, uuid := "u1", cosOutcome := .error "CosServiceError"
        notifyResponse := none, llmFragment := "", submitResponse := none }
      { region := "ap-x", bucket := "b1", keyPrefix := "p", cdnDomain := "cdn.example.com"
        credentials := { tmpSecretId := "i", tmpSecretKey := "k", sessionToken := "t" } }
      "PDF/a.pdf").1 = none :=
  upload_to_cos_exc _ _ _ "CosServiceError" rfl

/-! ## Claim C10: shape of the attachment fragment -/

/-- C10: assuming every notify response is a wellformed Python value
(real dicts have unique keys), every non-None value upload_pdf returns
is the literal attachments prefix followed by the indent=2 dump of the
response's data field; splitting it at the first colon yields the
quoted attachments key (which strips to the bare word) and a value part
that parses back to that data field.  And when the notify response
reports success but has no data key, upload_pdf returns None. -/
theorem upload_pdf_attachment_invariant (w : World) (fp : String)
    (hwfo : ∀ j, w.notifyResponse = some j → jsonWF j = true) :
    (∀ s, (upload_pdf w fp).1 = .ok (some s) →
      ∃ nkvs d, w.notifyResponse = some (.obj nkvs) ∧ dictGet nkvs "data" = some d ∧
        s = "\"attachments\": " ++ dumpsIndent d ∧
        splitOnceColon s = ("\"attachments\"", some (" " ++ dumpsIndent d)) ∧
        pyStripQuote (pyStrip "\"attachments\"") = "attachments" ∧
        parseJson (" " ++ dumpsIndent d) = some d) ∧
    (∀ cd nkvs, w.fileExists = true → w.credResult = some cd → w.cosOutcome = .ok () →
      w.notifyResponse = some (.obj nkvs) →
      truthyOpt (dictGet nkvs "success") = true → dictGet nkvs "data" = none →
      (upload_pdf w fp).1 = .ok none) := by
  constructor
  · intro s hs
    by_cases hfe : w.fileExists = false
    · simp [upload_pdf, hfe] at hs
    cases hcr : w.credResult with
    | none => simp [upload_pdf, get_upload_credentials, hfe, hcr] at hs
    | some cd =>
      cases hco : w.cosOutcome with
      | error e =>
        simp [upload_pdf, get_upload_credentials, upload_to_cos, hfe, hcr, hco] at hs
      | ok uu =>
        cases hnr : w.notifyResponse with
        | none =>
          simp [upload_pdf, get_upload_credentials, upload_to_cos, notify_application_server,
                attachmentFromNotify, hfe, hcr, hco, hnr] at hs
        | some res =>
          have hs2 : attachmentFromNotify (some res) = .ok (some s) := by
            simpa [upload_pdf, get_upload_credentials, upload_to_cos,
                   notify_application_server, hfe, hcr, hco, hnr] using hs
          unfold attachmentFromNotify at hs2
          simp only [] at hs2
          by_cases htr : jsonTruthy res = false
          · rw [if_pos htr] at hs2
            simp at hs2
          · rw [if_neg htr] at hs2
            cases res with
            | obj nkvs =>
              simp only [] at hs2
              by_cases hsc : truthyOpt (dictGet nkvs "success") = true
              · rw [if_pos hsc] at hs2
                cases hdg : dictGet nkvs "data" with
                | none =>
                  rw [hdg] at hs2
                  simp at hs2
                | some d =>
                  rw [hdg] at hs2
                  have hseq : "\"attachments\": " ++ dumpsIndent d = s := by
                    injection hs2 with h1
                    injection h1
                  have hwfd : jsonWF d = true :=
                    jsonWF_dictGet nkvs "data" d (by simpa [jsonWF] using hwfo _ hnr) hdg
                  refine ⟨nkvs, d, rfl, hdg, hseq.symm, ?_, rfl, parseJson_dumpsIndent d hwfd⟩
                  rw [← hseq]
                  exact splitOnceColon_attachments (dumpsIndent d)
              · rw [if_neg hsc] at hs2
                simp at hs2
            | null => exact absurd rfl htr
            | bool b =>
              cases b with
              | false => exact absurd rfl htr
              | true => simp at hs2
            | num n => simp at hs2
            | str s2 => simp at hs2
            | arr xs => simp at hs2
  · intro cd nkvs hfe hcr hco hnr hsc hdg
    have hne : ¬(w.fileExists = false) := by rw [hfe]; simp
    have hsv : ∃ sv, dictGet nkvs "success" = some sv := by
      cases hgv : dictGet nkvs "success" with
      | none => rw [hgv] at hsc; simp [truthyOpt] at hsc
      | some sv => exact ⟨sv, rfl⟩
    obtain ⟨sv, hgv⟩ := hsv
    have htr : jsonTruthy (PyJson.obj nkvs) = true := jsonTruthy_obj_of_get nkvs "success" sv hgv
    simp [upload_pdf, get_upload_credentials, upload_to_cos, notify_application_server,
          attachmentFromNotify, hne, hcr, hco, hnr, hsc, hdg, htr]

/-- World of the C10 witness: a full successful attachment run whose
notify response carries one uploaded-attachment record. -/
def c10World : World :=
  { fileExists := true
    credResult := some
      { region := "ap-x", bucket := "b1", keyPrefix := "p", cdnDomain := "cdn.example.com"
        credentials := { tmpSecretId := "i", tmpSecretKey := "k", sessionToken := "t" } }
    uuid := "u"
    cosOutcome := .ok ()
    notifyResponse := some (.obj [("success", .bool true),
      ("data", .arr [.obj [("id", .num 7), ("fileName", .str "a.pdf")]])])
    llmFragment := ""
    submitResponse := none }

/-- Witness for C10 at a concrete world: both conjuncts applied, the
first at the actual returned fragment string. -/
theorem upload_pdf_attachment_invariant_witness :
    ∃ nkvs d, c10World.notifyResponse = some (.obj nkvs) ∧ dictGet nkvs "data" = some d ∧
      ("\"attachments\": " ++ dumpsIndent (PyJson.arr [.obj [("id", .num 7),
          ("fileName", .str "a.pdf")]])) = "\"attachments\": " ++ dumpsIndent d ∧
      splitOnceColon ("\"attachments\": " ++ dumpsIndent (PyJson.arr [.obj [("id", .num 7),
          ("fileName", .str "a.pdf")]])) = ("\"attachments\"", some (" " ++ dumpsIndent d)) ∧
      pyStripQuote (pyStrip "\"attachments\"") = "attachments" ∧
      parseJson (" " ++ dumpsIndent d) = some d :=
  (upload_pdf_attachment_invariant c10World "PDF/a.pdf"
    (fun j hj => by injection hj with h; rw [← h]; rfl)).1
    ("\"attachments\": " ++ dumpsIndent (PyJson.arr [.obj [("id", .num 7),
      ("fileName", .str "a.pdf")]])) rfl

/-! ## Claim C2: a fully successful run persists the snapshot -/

/-- C2: when the credential fetch, the COS upload, the notification
(success with a data field, a real Python dict so keys are unique), the
LLM fragment parse and the paper submission (success with a truthy
identifier in data) all succeed, save_new_paper returns that
identifier, and the run writes the PaperRecord file named after the
paper whose page_id is that identifier and whose remaining fields are
the paper's name, province, grade, year, subject and the stem list
reduced to origin/stem. -/
theorem successful_run_persists (w : World) (qp : QuestionPage)
    {cd : CredentialData} {nkvs : List (String × PyJson)} {d : PyJson}
    {kvs0 rkvs : List (String × PyJson)} {pid : PyJson}
    (hfe : w.fileExists = true)
    (hcred : w.credResult = some cd)
    (hcos : w.cosOutcome = .ok ())
    (hnot : w.notifyResponse = some (.obj nkvs))
    (hnsucc : truthyOpt (dictGet nkvs "success") = true)
    (hndata : dictGet nkvs "data" = some d)
    (hwf : jsonWF (.obj nkvs) = true)
    (hfrag : parseJson (wrapBraces (trimFragment w.llmFragment)) = some (.obj kvs0))
    (hsub : w.submitResponse = some (.obj rkvs))
    (hssucc : truthyOpt (dictGet rkvs "success") = true)
    (hdata : dictGet rkvs "data" = some pid)
    (hpidt : truthyOpt (some pid) = true) :
    (save_new_paper w qp).1 = .returned (some pid) ∧
    Event.fileWrite ("output_toml/" ++ qp.name ++ ".toml")
      { name := qp.name, province := qp.province, grade := qp.grade, year := qp.year,
        subject := qp.subject, page_id := some pid,
        stemlist := qp.stemlist.map (fun q => { origin := q.origin, stem := q.stem }) }
      ∈ (save_new_paper w qp).2 := by
  have hne : ¬(w.fileExists = false) := by rw [hfe]; simp
  have hntr : jsonTruthy (PyJson.obj nkvs) = true := by
    cases hgv : dictGet nkvs "success" with
    | none => rw [hgv] at hnsucc; simp [truthyOpt] at hnsucc
    | some sv => exact jsonTruthy_obj_of_get nkvs "success" sv hgv
  have hup1 : (upload_pdf w ("PDF/" ++ qp.name ++ ".pdf")).1 =
      .ok (some ("\"attachments\": " ++ dumpsIndent d)) := by
    simp [upload_pdf, get_upload_credentials, upload_to_cos, notify_application_server,
          attachmentFromNotify, hne, hcred, hcos, hnot, hntr, hnsucc, hndata]
  have hwfd : jsonWF d = true :=
    jsonWF_dictGet nkvs "data" d (by simpa [jsonWF] using hwf) hndata
  have hparse : parseJson (" " ++ dumpsIndent d) = some d := parseJson_dumpsIndent d hwfd
  have hsplit := splitOnceColon_attachments (dumpsIndent d)
  have hsne : ¬("\"attachments\": " ++ dumpsIndent d) = "" := by
    intro h
    have hsp2 := splitOnceColon_attachments (dumpsIndent d)
    rw [h] at hsp2
    have h0 : splitOnceColon "" = ("", none) := rfl
    rw [h0] at hsp2
    exact Option.noConfusion (congrArg Prod.snd hsp2)
  have hmerge : mergeParcial kvs0 (some ("\"attachments\": " ++ dumpsIndent d)) =
      .ok (dictSet kvs0 "attachments" d) := by
    simp only [mergeParcial]
    rw [if_neg hsne, hsplit]
    simp only []
    rw [hparse]
    rfl
  have hrtr : jsonTruthy (PyJson.obj rkvs) = true := by
    cases hgv : dictGet rkvs "success" with
    | none => rw [hgv] at hssucc; simp [truthyOpt] at hssucc
    | some sv => exact jsonTruthy_obj_of_get rkvs "success" sv hgv
  have hfin : save_new_paper w qp =
      submitAndPersist w qp (dictSet kvs0 "attachments" d)
        (upload_pdf w ("PDF/" ++ qp.name ++ ".pdf")).2 := by
    simp [save_new_paper, hup1, hfrag, hmerge]
  rw [hfin]
  simp [submitAndPersist, hsub, hrtr, hssucc, hdata, hpidt]

/-- World of the C2 witness: every stage succeeds; the submission
response carries identifier PID-1. -/
def c2World : World :=
  { fileExists := true
    credResult := some
      { region := "ap-x", bucket := "b1", keyPrefix := "p", cdnDomain := "cdn.example.com"
        credentials := { tmpSecretId := "i", tmpSecretKey := "k", sessionToken := "t" } }
    uuid := "u"
    cosOutcome := .ok ()
    notifyResponse := some (.obj [("success", .bool true), ("data", .arr [])])
    llmFragment := "\"name\": \"t\","
    submitResponse := some (.obj [("success", .bool true), ("data", .str "PID-1")]) }

/-- Paper metadata of the C2 witness. -/
def c2Page : QuestionPage :=
  { name := "t", subject := "math", province := "gd", grade := "g1", year := "2024"
    page_id := none, stemlist := [{ origin := "o1", stem := "s1" }] }

/-- Witness for C2 at a concrete fully successful world: the run
returns PID-1 and writes output_toml/t.toml with page_id PID-1. -/
theorem successful_run_persists_witness :
    (save_new_paper c2World c2Page).1 = .returned (some (.str "PID-1")) ∧
    Event.fileWrite ("output_toml/" ++ c2Page.name ++ ".toml")
      { name := c2Page.name, province := c2Page.province, grade := c2Page.grade,
        year := c2Page.year, subject := c2Page.subject, page_id := some (.str "PID-1"),
        stemlist := c2Page.stemlist.map (fun q => { origin := q.origin, stem := q.stem }) }
      ∈ (save_new_paper c2World c2Page).2 :=
  successful_run_persists c2World c2Page rfl rfl rfl rfl rfl rfl rfl rfl rfl rfl rfl rfl

end AddPaper
